import Mathlib

/-!
# Static wiki (`src/app.js`): a shallow embedding and its verified properties

The program is a single-page wiki that keeps its article collection in the
global `STATE`, reads and writes it as a JSON snapshot, resolves views from the
location fragment and sanitises edited markup.

Conventions of the embedding.

* JavaScript strings are modelled by `String` (sequences of Unicode scalar
  values); lone surrogates are outside the model.
* A thrown exception is `none`; the doc comment of each function says which
  exception it stands for. A function that changes `STATE` before an exception
  escapes it returns an `Outcome`, which carries the state reached.
* Functions supplied by the browser whose results are not determined by the
  program text (`toLowerCase` on full Unicode, `localeCompare`, the conversion
  of a value to a string, the clock behind `nowISO`, `crypto.randomUUID`) are
  fields of `Host`; every call of
  `nowISO` or `randomUUID` consumes the next reading, counted in `State`.
* Parsing and printing of JSON text and of HTML text are the browser's; the
  model starts from the parsed value (`JVal`, `Node`).
* An array or object has an identity, which the operator `===` compares. The
  fields of an article hold values of type `Val`, in which an array or object
  carries the heap address it was given when it was stored.
-/

namespace Wiki

/-! ## Strings -/

/-- The characters `String.prototype.trim` strips and the regular expression
class `\s` matches: ECMAScript WhiteSpace and LineTerminator. -/
def isJsSpace (c : Char) : Bool :=
  let n := c.toNat
  n == 0x09 || n == 0x0A || n == 0x0B || n == 0x0C || n == 0x0D || n == 0x20 ||
  n == 0xA0 || n == 0x1680 || (0x2000 ≤ n && n ≤ 0x200A) || n == 0x2028 ||
  n == 0x2029 || n == 0x202F || n == 0x205F || n == 0x3000 || n == 0xFEFF

/-- Character-list form of `trim`: white space is dropped at both ends. -/
def trimChars (cs : List Char) : List Char :=
  ((cs.dropWhile isJsSpace).reverse.dropWhile isJsSpace).reverse

/-- The method `String.prototype.trim`. -/
def jsTrim (s : String) : String := ⟨trimChars s.data⟩

/-- Character-list form of `replace(/\s+/g, " ")`: every maximal run of white
space becomes one space (emitted at the last character of the run). -/
def collapseSpaces : List Char → List Char
  | [] => []
  | c :: cs =>
    if isJsSpace c then
      match cs with
      | [] => [' ']
      | d :: _ => if isJsSpace d then collapseSpaces cs else ' ' :: collapseSpaces cs
    else c :: collapseSpaces cs

/-- A character list in which every white-space character is a single space
followed by a character that is not white space, or is the last character. -/
def tidy : List Char → Bool
  | [] => true
  | c :: cs =>
    (if isJsSpace c then
      c == ' ' && (match cs with
        | [] => true
        | d :: _ => !isJsSpace d)
    else true) && tidy cs

/-- Source `normalizeTitle`: `title.trim().replace(/\s+/g, " ")`. -/
def normalizeTitle (title : String) : String :=
  ⟨collapseSpaces (trimChars title.data)⟩

/-- Source `slugifyTitle`: `title.trim()`. -/
def slugifyTitle (title : String) : String := jsTrim title

/-- The method `String.prototype.startsWith`. -/
def startsWith (s p : String) : Bool := p.data.isPrefixOf s.data

/-- The method `String.prototype.includes`: `q` occurs in `s` as a contiguous
substring. -/
def includes (s q : String) : Bool := s.data.tails.any (fun t => q.data.isPrefixOf t)

/-- JavaScript truthiness of a string: only the empty string is falsy. -/
def strTruthy (s : String) : Bool := !s.data.isEmpty

/-! ## Percent-encoding (`encodeURIComponent`, `decodeURIComponent`) -/

/-- Characters `encodeURIComponent` leaves as they are: ASCII letters, digits
and `- _ . ! ~ * ( )` together with the apostrophe (code 39). -/
def isUriUnreserved (c : Char) : Bool :=
  c.isAlphanum || c == '-' || c == '_' || c == '.' || c == '!' || c == '~' ||
  c == '*' || c == Char.ofNat 39 || c == '(' || c == ')'

/-- Upper-case hexadecimal digit of a number below 16. -/
def hexDigit (n : Nat) : Char :=
  if n < 10 then Char.ofNat (48 + n) else Char.ofNat (55 + n)

/-- Value of a hexadecimal digit, either case. -/
def hexVal (c : Char) : Option Nat :=
  let n := c.toNat
  if 48 ≤ n ∧ n ≤ 57 then some (n - 48)
  else if 65 ≤ n ∧ n ≤ 70 then some (n - 55)
  else if 97 ≤ n ∧ n ≤ 102 then some (n - 87)
  else none

/-- UTF-8 octets of a code point. -/
def utf8Octets (c : Char) : List Nat :=
  let v := c.toNat
  if v < 0x80 then [v]
  else if v < 0x800 then [0xC0 + v / 64, 0x80 + v % 64]
  else if v < 0x10000 then [0xE0 + v / 4096, 0x80 + v / 64 % 64, 0x80 + v % 64]
  else [0xF0 + v / 262144, 0x80 + v / 4096 % 64, 0x80 + v / 64 % 64, 0x80 + v % 64]

/-- The escape `%XX` of one octet. -/
def escapeOctet (b : Nat) : List Char := ['%', hexDigit (b / 16), hexDigit (b % 16)]

/-- Encoding of one character by `encodeURIComponent`. -/
def encodeChar (c : Char) : List Char :=
  if isUriUnreserved c then [c] else (utf8Octets c).flatMap escapeOctet

/-- The global `encodeURIComponent` on well-formed strings (on which it never
throws). -/
def encodeURIComponent (s : String) : String := ⟨s.data.flatMap encodeChar⟩

/-- A unit of a percent-encoded string: a literal character or an escaped
octet. -/
inductive UriTok where
  | lit (c : Char)
  | oct (b : Nat)
  deriving DecidableEq, Repr

/-- First pass of `decodeURIComponent`: every `%` must be followed by two
hexadecimal digits (`none` is the URIError otherwise). -/
def uriTokens : List Char → Option (List UriTok)
  | [] => some []
  | c :: cs =>
    if c = '%' then
      match cs with
      | h :: l :: rest =>
        match hexVal h, hexVal l with
        | some a, some b => (uriTokens rest).map (fun ts => UriTok.oct (16 * a + b) :: ts)
        | _, _ => none
      | _ => none
    else (uriTokens cs).map (fun ts => UriTok.lit c :: ts)

/-- A UTF-8 continuation octet `10xxxxxx`. -/
def isCont (b : Nat) : Bool := 0x80 ≤ b && b < 0xC0

/-- State of the UTF-8 decoder inside a multi-octet sequence: the number of
continuation octets still due, the bits gathered so far, and the least code
point a sequence of this length may denote. -/
structure Pending where
  due : Nat
  acc : Nat
  least : Nat
  deriving DecidableEq, Repr

/-- Second pass of `decodeURIComponent`, octet by octet (`p` is `none` between
characters): escaped octets at or above `0x80` must form valid UTF-8 sequences
(no stray continuation octet, no literal character or end of input inside a
sequence, no overlong form, no surrogate, nothing above `0x10FFFF`); `none` as
result is the URIError. -/
def decodeToks : Option Pending → List UriTok → Option (List Char)
  | none, [] => some []
  | some _, [] => none
  | none, .lit c :: ts => (decodeToks none ts).map (fun r => c :: r)
  | some _, .lit _ :: _ => none
  | none, .oct b :: ts =>
    if b < 0x80 then (decodeToks none ts).map (fun r => Char.ofNat b :: r)
    else if b < 0xC0 then none
    else if b < 0xE0 then decodeToks (some ⟨1, b - 0xC0, 0x80⟩) ts
    else if b < 0xF0 then decodeToks (some ⟨2, b - 0xE0, 0x800⟩) ts
    else if b < 0xF8 then decodeToks (some ⟨3, b - 0xF0, 0x10000⟩) ts
    else none
  | some p, .oct b :: ts =>
    if isCont b then
      if p.due ≤ 1 then
        if p.least ≤ p.acc * 64 + (b - 0x80)
            && !(0xD800 ≤ p.acc * 64 + (b - 0x80) && p.acc * 64 + (b - 0x80) ≤ 0xDFFF)
            && p.acc * 64 + (b - 0x80) ≤ 0x10FFFF then
          (decodeToks none ts).map (fun r => Char.ofNat (p.acc * 64 + (b - 0x80)) :: r)
        else none
      else decodeToks (some ⟨p.due - 1, p.acc * 64 + (b - 0x80), p.least⟩) ts
    else none

/-- The global `decodeURIComponent`; `none` is the URIError it throws on a
malformed escape. -/
def decodeURIComponent (s : String) : Option String :=
  match uriTokens s.data with
  | none => none
  | some ts => (decodeToks none ts).map String.mk

/-- Tokens the first pass yields on the encoding of one character: the
character itself when it is unreserved, its UTF-8 octets otherwise. -/
def charToks (c : Char) : List UriTok :=
  if isUriUnreserved c then [UriTok.lit c] else (utf8Octets c).map UriTok.oct

/-! ## JSON values -/

/-- A value as `JSON.parse` returns it, without the identity of its arrays and
objects. Numbers are modelled by integers: the program only tests a number for
being zero (truthiness) and for its type, and prints it through the host. -/
inductive JVal where
  | null
  | bool (b : Bool)
  | num (n : Int)
  | str (s : String)
  | arr (items : List JVal)
  | obj (members : List (String × JVal))
  deriving Repr, Inhabited

/-- JavaScript truthiness of a JSON value: `null`, `false`, `0` and `""` are
falsy, everything else (every array and object included) is truthy. -/
def JVal.truthy : JVal → Bool
  | .null => false
  | .bool b => b
  | .num n => n != 0
  | .str s => strTruthy s
  | .arr _ => true
  | .obj _ => true

/-- Property read `v.key` on a non-null value, for the keys the program reads
(`articles`, `version`, `exportedAt`, `id`, `title`, `html`, `createdAt`,
`updatedAt`); `none` is `undefined`. Only an object can have such a member:
booleans, numbers, strings and arrays have no property of these names. A parsed
object has at most one member of a name. -/
def JVal.get (v : JVal) (key : String) : Option JVal :=
  match v with
  | .obj members => members.lookup key
  | _ => none

/-- Truthiness of the result of a property read (`undefined` is falsy). -/
def optTruthy : Option JVal → Bool
  | none => false
  | some v => v.truthy

/-- A value held by a field of an article or of `STATE`: a primitive value, or
a reference to an array or object. The reference is the address `addr` of the
object; `content` is what the object holds, as `JSON.stringify` prints it. -/
inductive Val where
  | null
  | bool (b : Bool)
  | num (n : Int)
  | str (s : String)
  | ref (addr : Nat) (content : JVal)
  deriving Repr, Inhabited

/-- JavaScript truthiness of a held value; every array and object is truthy. -/
def Val.truthy : Val → Bool
  | .null => false
  | .bool b => b
  | .num n => n != 0
  | .str s => strTruthy s
  | .ref _ _ => true

/-- The JSON value `JSON.stringify` prints for a held value. -/
def Val.toJson : Val → JVal
  | .null => .null
  | .bool b => .bool b
  | .num n => .num n
  | .str s => .str s
  | .ref _ content => content

/-- The operator `===` on held values: primitives of the same type are compared
by value, arrays and objects by reference (two of them are equal only when they
are the same object, whatever they hold). -/
def strictEq (a b : Val) : Bool :=
  match a, b with
  | .null, .null => true
  | .bool x, .bool y => x == y
  | .num x, .num y => x == y
  | .str x, .str y => x == y
  | .ref x _, .ref y _ => x == y
  | _, _ => false

/-! ## Parsed markup -/

/-- An attribute of an element: qualified name and value. -/
structure Attr where
  name : String
  value : String
  deriving DecidableEq, Repr

/-- A node of a parsed HTML fragment: character data, an element with its
local name, its attributes in document order and its children, or an HTML
`template` element. What is written inside a `template` element is parsed into
a separate fragment, its `content`, and the element itself has no children:
`querySelectorAll` on the enclosing fragment matches the `template` element and
nothing of its content, while `innerHTML` prints the content between the tags
of the element. -/
inductive Node where
  | text (data : String)
  | element (tag : String) (attrs : List Attr) (children : List Node)
  | template (attrs : List Attr) (content : List Node)
  deriving Repr

/-! ## Host functions and program state -/

/-- An article object of `STATE.data.articles`. The fields `id`, `createdAt` and
`updatedAt` hold whatever truthy value the snapshot carried; `title` and `html`
are always strings. -/
structure Article where
  id : Val
  title : String
  html : String
  createdAt : Val
  updatedAt : Val
  deriving Repr, Inhabited

/-- What the browser supplies. -/
structure Host where
  /-- The method `String.prototype.toLowerCase`. -/
  toLowerCase : String → String
  /-- The method `String.prototype.localeCompare` (negative, zero or positive). -/
  localeCompare : String → String → Int
  /-- The conversion of a truthy value that is not a string to a string (the
  language operation ToString: number formatting, `join` of an array, method
  lookup on an object); `none` when it throws a TypeError, which for a value of
  a parsed document happens exactly when the conversion to a primitive does. -/
  toText : Val → Option String
  /-- The method `Array.prototype.sort` on a list of articles with a comparator
  that throws on some pairs and not on others: which pairs the engine compares,
  and so whether the call throws (`none`) and what it returns, is up to the
  engine. -/
  sortArticles : (Article → Article → Option Int) → List Article → Option (List Article)
  /-- Result of the `k`-th evaluation of `new Date().toISOString()`. -/
  clock : Nat → String
  /-- Result of the `k`-th call of `crypto.randomUUID()`. -/
  uuid : Nat → String
  /-- Result of the `k`-th evaluation of `Math.floor(Math.random() * len)`. -/
  randomIndex : Nat → Nat → Nat
  /-- HTML fragment parser behind `tpl.innerHTML = html`. -/
  parseHTML : String → List Node
  /-- HTML fragment serialiser behind reading `tpl.innerHTML`. -/
  printHTML : List Node → String

/-- The modelled members of `STATE.data`. After a load the object is the parsed
document itself; members other than these three are kept by the program but
never read and are not modelled. `exportedAt` is `none` when the member is
absent. -/
structure Data where
  version : JVal
  exportedAt : Option JVal
  articles : List Article
  deriving Repr

/-- Names of routes, as `routeFromHash` returns them. -/
inductive RouteName where
  | home
  | about
  | random
  | edit
  | article
  deriving DecidableEq, Repr

/-- A route: `{ name, arg }` with `arg` a string or `null`. -/
structure Route where
  name : RouteName
  arg : Option String
  deriving DecidableEq, Repr

/-- The messages the program shows with `toast`. -/
inductive Toast where
  | emptyTitle
  | duplicateTitle
  | saved
  | downloaded
  | imported
  | importFailed
  | editorLocked
  | noArticles
  deriving DecidableEq, Repr

/-- The global `STATE` and the parts of the page the modelled functions read or
write: the location fragment, the search box, the messages shown so far, and
how many readings of the clock, of `randomUUID` and of `Math.random` have been
consumed, and how many arrays and objects have been stored in article fields
(`heap`, the next free address). -/
structure State where
  data : Data
  loadedFromFile : Bool
  gateUnlocked : Bool
  currentRoute : Route
  currentArticleId : Val
  editingArticleId : Val
  hash : String
  searchValue : String
  toasts : List Toast
  ticks : Nat
  uuids : Nat
  randoms : Nat
  heap : Nat
  deriving Repr

/-- The value `{ version: 1, exportedAt: null, articles: [] }`. -/
def emptyData : Data := { version := .num 1, exportedAt := some .null, articles := [] }

/-- The initial `STATE` of the script, on a page at fragment `hash`. -/
def initialState (hash : String) : State :=
  { data := emptyData, loadedFromFile := false, gateUnlocked := false,
    currentRoute := { name := .home, arg := none }, currentArticleId := .null,
    editingArticleId := .null, hash := hash, searchValue := "", toasts := [],
    ticks := 0, uuids := 0, randoms := 0, heap := 0 }

/-- Source `toast`: the message is shown (appended to the log). -/
def toast (st : State) (msg : Toast) : State := { st with toasts := st.toasts ++ [msg] }

/-- Source `nowISO`: the next reading of the clock. -/
def nowISO (host : Host) (st : State) : String × State :=
  (host.clock st.ticks, { st with ticks := st.ticks + 1 })

/-- The call `crypto.randomUUID()`: the next identifier. -/
def randomUUID (host : Host) (st : State) : String × State :=
  (host.uuid st.uuids, { st with uuids := st.uuids + 1 })

/-! ## Article repository -/

/-- Source `findArticleByTitle`: the first article whose normalized title equals
the normalized argument, or `none` for `null`. -/
def findArticleByTitle (articles : List Article) (title : String) : Option Article :=
  let t := normalizeTitle title
  articles.find? (fun a => normalizeTitle a.title == t)

/-- Source `findArticleIndexById`: index of the first article with this id;
`none` is the result `-1`. -/
def findArticleIndexById (articles : List Article) (id : Val) : Option Nat :=
  articles.findIdx? (fun a => strictEq a.id id)

/-! ## Sanitizer -/

/-- The call `el.removeAttribute(name)`: the first attribute of that name is
removed. -/
def removeAttribute (attrs : List Attr) (name : String) : List Attr :=
  attrs.eraseP (fun a => a.name == name)

/-- Body of the loop over one attribute in `sanitizeHTML`, acting on the
current attribute list of the element. -/
def scrubStep (host : Host) (cur : List Attr) (attr : Attr) : List Attr :=
  let name := host.toLowerCase attr.name
  let value := attr.value
  let cur1 := if startsWith name "on" then removeAttribute cur attr.name else cur
  if (name == "href" || name == "src")
      && startsWith (host.toLowerCase (jsTrim value)) "javascript:" then
    removeAttribute cur1 attr.name
  else cur1

/-- The loop `[...el.attributes].forEach(...)`: the steps run over a copy of the
attribute list taken before the first removal. -/
def scrubAttrs (host : Host) (attrs : List Attr) : List Attr :=
  attrs.foldl (scrubStep host) attrs

/-- Whether a node is an element matched by the selector `script`. -/
def Node.isScript : Node → Bool
  | .text _ => false
  | .element tag _ _ => tag == "script"
  | .template _ _ => false

mutual
/-- A node that is kept, with the `script` elements among its descendants
removed. -/
def Node.dropScripts : Node → Node
  | .text d => .text d
  | .element tag attrs kids => .element tag attrs (dropScriptsList kids)
  | .template attrs content => .template attrs content
/-- Removal of every `script` element of a node list, at any depth
(`querySelectorAll("script")` followed by `remove()` on each match). The
selector does not look into the content of a `template` element. -/
def dropScriptsList : List Node → List Node
  | [] => []
  | n :: ns => if n.isScript then dropScriptsList ns else n.dropScripts :: dropScriptsList ns
end

mutual
/-- The attribute loop applied to a node and to every element below it. -/
def Node.scrub (host : Host) : Node → Node
  | .text d => .text d
  | .element tag attrs kids => .element tag (scrubAttrs host attrs) (scrubList host kids)
  | .template attrs content => .template (scrubAttrs host attrs) content
/-- The attribute loop applied to every element of a node list
(`querySelectorAll("*")`). A `template` element is matched, the elements of its
content are not. -/
def scrubList (host : Host) : List Node → List Node
  | [] => []
  | n :: ns => n.scrub host :: scrubList host ns
end

/-- The tree part of source `sanitizeHTML`, between `tpl.innerHTML = html` and
`return tpl.innerHTML`: scripts are removed, then dangerous attributes. -/
def sanitizeTree (host : Host) (frag : List Node) : List Node :=
  scrubList host (dropScriptsList frag)

/-- Source `sanitizeHTML`: parse, clean the tree, serialise. The serialiser
prints the content of `template` elements as well. -/
def sanitizeHTML (host : Host) (html : String) : String :=
  host.printHTML (sanitizeTree host (host.parseHTML html))

mutual
/-- Whether `p tag attrs` holds of a node, when it is an element, and of every
element below it in the tree (the elements `querySelectorAll("*")` matches). -/
def Node.allElements (p : String → List Attr → Bool) : Node → Bool
  | .text _ => true
  | .element tag attrs kids => p tag attrs && allElementsList p kids
  | .template attrs _ => p "template" attrs
/-- Whether `p tag attrs` holds of every element of a node list, at any depth
of the tree; the content of `template` elements is not looked at. -/
def allElementsList (p : String → List Attr → Bool) : List Node → Bool
  | [] => true
  | n :: ns => n.allElements p && allElementsList p ns
end

mutual
/-- Whether `p tag attrs` holds of a node, when it is an element, and of every
element that is printed with it: the elements below it and the elements of the
content of `template` elements. -/
def Node.allPrinted (p : String → List Attr → Bool) : Node → Bool
  | .text _ => true
  | .element tag attrs kids => p tag attrs && allPrintedList p kids
  | .template attrs content => p "template" attrs && allPrintedList p content
/-- Whether `p tag attrs` holds of every element in the markup printed for a
node list, the content of `template` elements included. -/
def allPrintedList (p : String → List Attr → Bool) : List Node → Bool
  | [] => true
  | n :: ns => n.allPrinted p && allPrintedList p ns
end

/-- An attribute the sanitizer is to remove: its lower-cased name begins with
`on`, or it is a `href` or `src` whose trimmed, lower-cased value begins with
`javascript:`. -/
def isDangerous (host : Host) (a : Attr) : Bool :=
  startsWith (host.toLowerCase a.name) "on"
    || ((host.toLowerCase a.name == "href" || host.toLowerCase a.name == "src")
        && startsWith (host.toLowerCase (jsTrim a.value)) "javascript:")

/-- What the sanitizer guarantees of an element: it is not a `script` element
and none of its attributes is dangerous. -/
def isSafeElement (host : Host) (tag : String) (attrs : List Attr) : Bool :=
  tag != "script" && attrs.all (fun a => !isDangerous host a)

/-- Attribute names are pairwise distinct within every element, as in every
tree the HTML parser builds (it drops a repeated attribute of a tag). -/
def distinctAttrNames (frag : List Node) : Bool :=
  allElementsList (fun _ attrs => decide (attrs.map Attr.name).Nodup) frag

/-! ## Snapshot codec -/

/-- The placeholder title of the repair step. -/
def placeholderTitle : String := "Без названия"

/-- A member of a parsed document as a field holds it. A primitive is held by
value. An array or object is held by reference: it is an object of its own,
which the parser created, and the model gives it the next free address when it
is stored; the counter `heap` only grows, so two members stored one after the
other never share an address. -/
def store (st : State) (v : JVal) : Val × State :=
  match v with
  | .null => (.null, st)
  | .bool b => (.bool b, st)
  | .num n => (.num n, st)
  | .str s => (.str s, st)
  | .arr items => (.ref st.heap (.arr items), { st with heap := st.heap + 1 })
  | .obj members => (.ref st.heap (.obj members), { st with heap := st.heap + 1 })

/-- The repair of one entry of `articles`, the arrow function passed to `map` in
`loadArticlesJSON` and in `importArticlesFromFile`. The members of the object
literal are evaluated in order, so `randomUUID` is called before the clock is
read. When `updatedAt` falls back to `a.createdAt` it holds the very value the
field `createdAt` holds. `none` is the TypeError of reading a property of
`null`. -/
def repairEntry (host : Host) (st : State) (a : JVal) : Option (Article × State) :=
  match a with
  | .null => none
  | _ =>
    let fresh := randomUUID host st
    let (ident, st1) :=
      if optTruthy (a.get "id") then store st ((a.get "id").getD .null)
      else (Val.str fresh.1, fresh.2)
    let title := match a.get "title" with
      | some (.str s) => s
      | _ => placeholderTitle
    let html := match a.get "html" with
      | some (.str s) => s
      | _ => ""
    let now1 := nowISO host st1
    let (createdAt, st2) :=
      if optTruthy (a.get "createdAt") then store st1 ((a.get "createdAt").getD .null)
      else (Val.str now1.1, now1.2)
    let now2 := nowISO host st2
    let (updatedAt, st3) :=
      if optTruthy (a.get "updatedAt") then store st2 ((a.get "updatedAt").getD .null)
      else if optTruthy (a.get "createdAt") then (createdAt, st2)
      else (Val.str now2.1, now2.2)
    some ({ id := ident, title := title, html := html, createdAt := createdAt,
            updatedAt := updatedAt }, st3)

/-- The call `json.articles.map(...)` with the repair function; `none` when the
repair of some entry throws. -/
def repairEntries (host : Host) : State → List JVal → Option (List Article × State)
  | st, [] => some ([], st)
  | st, a :: rest =>
    match repairEntry host st a with
    | none => none
    | some (x, st1) =>
      match repairEntries host st1 rest with
      | none => none
      | some (xs, st2) => some (x :: xs, st2)

/-- The state in which the call `json.articles.map(...)` ends: after the last
entry, or at the entry whose repair throws. -/
def repairReached (host : Host) : State → List JVal → State
  | st, [] => st
  | st, a :: rest =>
    match repairEntry host st a with
    | none => st
    | some (_, st1) => repairReached host st1 rest

/-- The `catch` branch of `loadArticlesJSON`: an empty start. -/
def loadFallback (st : State) : State :=
  { st with data := emptyData, loadedFromFile := false }

/-- Source `loadArticlesJSON`. The argument is the outcome of fetching and
parsing `./articles.json`: `none` when the fetch fails, the response is not ok
or the text is not JSON. -/
def loadArticlesJSON (host : Host) (st : State) (fetched : Option JVal) : State :=
  match fetched with
  | none => loadFallback st
  | some json =>
    let isObjectType := match json with
      | .obj _ => true
      | .arr _ => true
      | .null => true
      | _ => false
    if !json.truthy || !isObjectType then loadFallback st
    else
      let entries := match json.get "articles" with
        | some (.arr items) => items
        | _ => []
      let version := match json.get "version" with
        | some (.num n) => JVal.num n
        | _ => JVal.num 1
      match repairEntries host st entries with
      | none => loadFallback (repairReached host st entries)
      | some (articles, st1) =>
        { st1 with
          data := { version := version, exportedAt := json.get "exportedAt",
                    articles := articles },
          loadedFromFile := true }

/-- One article of the export object of `downloadArticles`, as
`JSON.stringify` prints it. -/
def articleJson (a : Article) : JVal :=
  .obj [("id", a.id.toJson), ("title", .str a.title), ("html", .str a.html),
        ("createdAt", a.createdAt.toJson), ("updatedAt", a.updatedAt.toJson)]

/-- The export object built for the collection `articles` at time `exportedAt`. -/
def exportObj (articles : List Article) (exportedAt : String) : JVal :=
  .obj [("version", .num 1), ("exportedAt", .str exportedAt),
        ("articles", .arr (articles.map articleJson))]

/-- Source `downloadArticles`: the document offered for download (its JSON text
is printed and later parsed by the browser; the model hands over the value) and
the state afterwards. -/
def downloadArticles (host : Host) (st : State) : JVal × State :=
  let (now, st1) := nowISO host st
  (exportObj st.data.articles now, toast st1 .downloaded)

/-- Whether a value is a non-empty string. -/
def Val.isNonEmptyStr : Val → Bool
  | .str s => strTruthy s
  | _ => false

/-- An article as the program itself creates it: the id and both time stamps
are non-empty strings (title and html are strings in every article). -/
def Article.wellStamped (a : Article) : Bool :=
  a.id.isNonEmptyStr && a.createdAt.isNonEmptyStr && a.updatedAt.isNonEmptyStr

/-! ## Routes and views -/

/-- The call `raw.split("/")`, on character lists: the pieces between slashes,
always at least one. -/
def splitSlash : List Char → List (List Char)
  | [] => [[]]
  | c :: cs =>
    if c = '/' then [] :: splitSlash cs
    else
      match splitSlash cs with
      | p :: ps => (c :: p) :: ps
      | [] => [[c]]

/-- The call `parts.join("/")`, on character lists. -/
def joinSlash (parts : List (List Char)) : List Char := List.intercalate ['/'] parts

/-- Source `routeFromHash`, as a function of `location.hash`. The first two
characters are dropped whatever they are; `none` is the URIError of
`decodeURIComponent`. -/
def routeFromHash (hash : String) : Option Route :=
  let raw := ((if strTruthy hash then hash else "#/").data).drop 2
  if raw.isEmpty then some { name := .home, arg := none }
  else
    let parts := splitSlash raw
    match decodeURIComponent ⟨parts.headD []⟩ with
    | none => none
    | some head =>
      if head = "" then some { name := .home, arg := none }
      else if head = "about" then some { name := .about, arg := none }
      else if head = "random" then some { name := .random, arg := none }
      else if head = "edit" then
        match decodeURIComponent ⟨joinSlash parts.tail⟩ with
        | none => none
        | some title => some { name := .edit, arg := if strTruthy title then some title else none }
      else
        match decodeURIComponent ⟨raw⟩ with
        | none => none
        | some title => some { name := .article, arg := some title }

/-- The string `(x.updatedAt || "")` on which the comparator of `renderHome`
calls `localeCompare`; `none` when the value is truthy and not a string, so
that the call is a TypeError. -/
def sortKey (v : Val) : Option String :=
  match v with
  | .str s => some s
  | other => if other.truthy then none else some ""

/-- Insertion of `a` in front of the first element it may precede. -/
def insertSorted {α : Type} (before : α → α → Bool) (a : α) : List α → List α
  | [] => [a]
  | b :: bs => if before a b then a :: b :: bs else b :: insertSorted before a bs

/-- The method `Array.prototype.sort` with a comparator, on a copy: a stable
sort in which `a` stays in front of `b` when `cmp a b ≤ 0`. (The result of the
method is determined by the language only for a consistent comparator; every
stable sort then returns this list.) -/
def jsSort {α : Type} (cmp : α → α → Int) (l : List α) : List α :=
  l.foldr (insertSorted (fun a b => decide (cmp a b ≤ 0))) []

/-- The method `Array.prototype.sort` on a copy of a list of articles, with a
comparator that may throw; `none` when the call throws. With fewer than two
elements the comparator is not called. When no call of the comparator throws,
the result is the one of `jsSort`. When every call throws, so does the method,
which compares at least once. In between, the outcome depends on which pairs
the engine compares and is the host's. -/
def jsSortM (host : Host) (cmp : Article → Article → Option Int) (l : List Article) :
    Option (List Article) :=
  if l.length < 2 then some l
  else if l.all (fun a => l.all (fun b => (cmp a b).isSome)) then
    some (jsSort (fun a b => (cmp a b).getD 0) l)
  else if l.all (fun a => l.all (fun b => (cmp a b).isNone)) then none
  else host.sortArticles cmp l

/-- The argument `(x.updatedAt || "")` of `localeCompare`, converted to a
string as the method does; `none` when the conversion throws. -/
def argText (host : Host) (v : Val) : Option String :=
  match v with
  | .str s => some s
  | other => if other.truthy then host.toText other else some ""

/-- The comparator `(a,b) => (b.updatedAt || "").localeCompare(a.updatedAt || "")`
of `renderHome`. The receiver is taken from `b`: the call is a TypeError when
`b.updatedAt` is truthy and not a string. -/
def byUpdatedDesc (host : Host) (a b : Article) : Option Int :=
  match sortKey b.updatedAt with
  | none => none
  | some receiver => (argText host a.updatedAt).map (host.localeCompare receiver)


/-- The value of the comparator of `renderHome` on articles whose `updatedAt` is
a string or falsy, where it does not throw. -/
def byUpdatedDescStr (host : Host) (a b : Article) : Int :=
  host.localeCompare ((sortKey b.updatedAt).getD "") ((sortKey a.updatedAt).getD "")

/-- The filter `a => !q || a.title.toLowerCase().includes(q)` of `renderHome`. -/
def matchesQuery (host : Host) (q : String) (a : Article) : Bool :=
  !strTruthy q || includes (host.toLowerCase a.title) q

/-- The constant `list` of source `renderHome` for the search box content
`searchValue`. `none` is the TypeError of a comparison the sort makes, when the
receiver of `localeCompare` is not a string or its argument cannot be converted
to one. On a collection whose `updatedAt` values are strings or falsy no
comparison throws. -/
def homeList (host : Host) (articles : List Article) (searchValue : String) :
    Option (List Article) :=
  let q := host.toLowerCase (jsTrim searchValue)
  match jsSortM host (byUpdatedDesc host) articles with
  | none => none
  | some sorted => some (sorted.filter (matchesQuery host q))

/-- Whether a value is a string. -/
def Val.isStr : Val → Bool
  | .str _ => true
  | _ => false

/-- Whether the text of `formatDate(v)` can be put on the page. The call
`new Date(v)` throws only when `v` is an array or object whose conversion to a
primitive throws; `formatDate` then returns `v` itself, and its use as a string
(`escapeHTML`, a template literal) throws a TypeError. -/
def datePrintable (host : Host) (v : Val) : Bool :=
  match v with
  | .ref addr content => (host.toText (.ref addr content)).isSome
  | _ => true

/-- Source `renderHome`, as far as `STATE` and exceptions go: the list is
computed and every listed article is rendered, which prints
`formatDate(a.updatedAt)` and calls `a.id.slice(0,8)`; the latter, or the
`escapeHTML` around it, throws a TypeError (`none`) when the id is not a
string. -/
def renderHome (host : Host) (st : State) : Option State :=
  match homeList host st.data.articles st.searchValue with
  | none => none
  | some list =>
    if list.all (fun a => datePrintable host a.updatedAt && a.id.isStr) then some st else none

/-- How a call ends: it returns, or an exception escapes it, in the state
reached by then. -/
inductive Outcome where
  | returned (st : State)
  | thrown (st : State)
  deriving Repr

/-- The state in which the call ended. -/
def Outcome.state : Outcome → State
  | .returned st => st
  | .thrown st => st

/-- Source `renderArticle`, as far as `STATE` and exceptions go: a found
article becomes the current one and its two dates are printed; otherwise the
not-found view is shown. -/
def renderArticle (host : Host) (st : State) (title : String) : Outcome :=
  match findArticleByTitle st.data.articles title with
  | none => .returned st
  | some art =>
    let st1 := { st with currentArticleId := art.id }
    if datePrintable host art.createdAt && datePrintable host art.updatedAt then .returned st1
    else .thrown st1

/-- Source `renderRandom`: the fragment is set to a random article, or to home
with a notice when there is none. `none` (a TypeError) arises only if the host
returned an index outside the collection. -/
def renderRandom (host : Host) (st : State) : Option State :=
  if st.data.articles.isEmpty then some (toast { st with hash := "#/" } .noArticles)
  else
    match st.data.articles[host.randomIndex st.randoms st.data.articles.length]? with
    | none => none
    | some pick =>
      some { st with hash := "#/" ++ encodeURIComponent pick.title, randoms := st.randoms + 1 }

/-- Source `openEditor`, as far as `STATE` goes: with the gate locked it bounces
to home; otherwise `editingArticleId` becomes the id of the article of that
title, or `null` when there is none or no title was given. -/
def openEditor (st : State) (titleOrNull : Option String) : State :=
  if !st.gateUnlocked then { toast st .editorLocked with hash := "#/" }
  else
    let art := match titleOrNull with
      | none => none
      | some t => if strTruthy t then findArticleByTitle st.data.articles t else none
    match art with
    | some a => { st with editingArticleId := a.id }
    | none => { st with editingArticleId := .null }

/-- Source `renderRoute`: the route is resolved, stored and its view rendered.
An exception of `routeFromHash` escapes before `STATE.currentRoute` is
assigned, an exception of a view after it. -/
def renderRoute (host : Host) (st : State) : Outcome :=
  match routeFromHash st.hash with
  | none => .thrown st
  | some r =>
    let st1 := { st with currentRoute := r }
    match r.name with
    | .home =>
      match renderHome host st1 with
      | some st2 => .returned st2
      | none => .thrown st1
    | .about => .returned st1
    | .random =>
      match renderRandom host st1 with
      | some st2 => .returned st2
      | none => .thrown st1
    | .edit => .returned (openEditor st1 r.arg)
    | .article => renderArticle host st1 (r.arg.getD "")

/-! ## Import and save -/

/-- Source `importArticlesFromFile`, the body of `reader.onload`. The argument
is the outcome of `JSON.parse(reader.result)`, `none` when it throws. Every
exception raised inside the `try` block, the one of `renderRoute` included,
ends in the `catch` branch, which shows the failure message in the state
reached by then. -/
def importArticlesFromFile (host : Host) (st : State) (parsed : Option JVal) : State :=
  match parsed with
  | none => toast st .importFailed
  | some json =>
    if !json.truthy then toast st .importFailed
    else
      match json.get "articles" with
      | some (.arr entries) =>
        match repairEntries host st entries with
        | none => toast (repairReached host st entries) .importFailed
        | some (articles, st1) =>
          let exportedAt :=
            if optTruthy (json.get "exportedAt") then json.get "exportedAt" else some .null
          let st2 := toast { st1 with data := { version := .num 1, exportedAt := exportedAt,
                                                articles := articles } } .imported
          match renderRoute host st2 with
          | .thrown st3 => toast st3 .importFailed
          | .returned st3 => st3
      | _ => toast st .importFailed

/-- Source `saveEditor`. `titleValue` is `els.editorTitle.value` and `draft` is
`els.editor.innerHTML` at the time of the call. -/
def saveEditor (host : Host) (st : State) (titleValue draft : String) : State :=
  let title := normalizeTitle titleValue
  if !strTruthy title then toast st .emptyTitle
  else
    let existing := findArticleByTitle st.data.articles title
    let clash := match existing with
      | some e => !strictEq e.id st.editingArticleId
      | none => false
    if clash then toast st .duplicateTitle
    else
      let html := sanitizeHTML host draft
      let st1 :=
        if st.editingArticleId.truthy then
          match findArticleIndexById st.data.articles st.editingArticleId with
          | some idx =>
            match st.data.articles[idx]? with
            | some old =>
              let now := nowISO host st
              { now.2 with
                data := { st.data with
                  articles := st.data.articles.set idx
                    { old with title := title, html := html, updatedAt := .str now.1 } } }
            | none => st
          | none => st
        else
          let fresh := randomUUID host st
          let created := nowISO host fresh.2
          let updated := nowISO host created.2
          { updated.2 with
            data := { st.data with
              articles := st.data.articles ++
                [{ id := .str fresh.1, title := title, html := html,
                   createdAt := .str created.1, updatedAt := .str updated.1 }] } }
      { toast st1 .saved with hash := "#/" ++ encodeURIComponent title }

/-- The time stamps of an article are strings, `createdAt` is not later than
`updatedAt` in string order, and not later than the clock reading `now`. -/
def stampsOrdered (now : String) (a : Article) : Prop :=
  ∃ c u, a.createdAt = .str c ∧ a.updatedAt = .str u ∧ c ≤ u ∧ c ≤ now

/-- A sequence of saves. Before each one the editor is opened on some target
(`editingArticleId` is set, as `openEditor` does) and the user types a title
and a content. -/
def runSaves (host : Host) : State → List (Val × String × String) → State
  | st, [] => st
  | st, (target, title, draft) :: rest =>
    runSaves host (saveEditor host { st with editingArticleId := target } title draft) rest

/-! ## Sample data -/

/-- Insertion with a comparator that may throw: `a` goes in front of the first
element `b` with `cmp a b ≤ 0`. -/
def insertSortedM {α : Type} (cmp : α → α → Option Int) (a : α) : List α → Option (List α)
  | [] => some [a]
  | b :: bs =>
    match cmp a b with
    | none => none
    | some c => if c ≤ 0 then some (a :: b :: bs) else (insertSortedM cmp a bs).map (b :: ·)

/-- The sort of the sample host: an insertion sort from the right end of the
list, which passes the element to insert as `a` and an element already in
place as `b`, and throws when a comparison does. -/
def insertionSortM {α : Type} (cmp : α → α → Option Int) : List α → Option (List α)
  | [] => some []
  | a :: l =>
    match insertionSortM cmp l with
    | none => none
    | some sorted => insertSortedM cmp a sorted

/-- A host for examples: ASCII lower-casing, comparison by code points, a clock
that advances by a millisecond after three readings, identifiers `a`, `aa`, ...,
and markup treated as plain text. Its conversion to a string prints booleans
and numbers, throws on an object with a member `toString`, and prints every
array as the empty string. -/
def sampleHost : Host where
  toLowerCase s := ⟨s.data.map Char.toLower⟩
  localeCompare a b := if a.data < b.data then -1 else if a = b then 0 else 1
  toText v :=
    match v with
    | .bool b => some (if b then "true" else "false")
    | .num n => some (toString n)
    | .ref _ (.obj members) =>
      if (members.lookup "toString").isSome then none else some "[object Object]"
    | _ => some ""
  sortArticles cmp l := insertionSortM cmp l
  clock k := if k < 3 then "2024-05-01T10:00:00.000Z" else "2024-05-01T10:00:00.001Z"
  uuid k := ⟨List.replicate (k + 1) 'a'⟩
  randomIndex _ _ := 0
  parseHTML s := [Node.text s]
  printHTML ns := String.join (ns.map (fun n =>
    match n with
    | .text d => d
    | _ => ""))

/-- An article with string fields. -/
def sampleArticle : Article :=
  { id := .str "a1", title := "Alpha", html := "<p>one</p>",
    createdAt := .str "2024-04-01T09:00:00.000Z", updatedAt := .str "2024-04-02T09:00:00.000Z" }

/-- A second article with string fields. -/
def sampleArticle2 : Article :=
  { id := .str "b2", title := "Beta", html := "",
    createdAt := .str "2024-04-03T09:00:00.000Z", updatedAt := .str "2024-04-03T09:00:00.000Z" }

/-- A state with the editor unlocked and two articles. -/
def sampleState : State :=
  { initialState "#/" with
    gateUnlocked := true,
    data := { emptyData with articles := [sampleArticle, sampleArticle2] } }

/-- A well-formed snapshot holding one complete article. -/
def sampleSnapshot : JVal := exportObj [sampleArticle] "2024-04-05T09:00:00.000Z"

/-- A snapshot whose only entry has a numeric id and no other member. -/
def numericIdSnapshot : JVal := .obj [("articles", .arr [.obj [("id", .num 7)]])]

/-- A snapshot whose only entry was updated before it was created. -/
def backdatedSnapshot : JVal :=
  .obj [("articles", .arr [.obj [("id", .str "x"), ("title", .str "T"), ("html", .str ""),
    ("createdAt", .str "2024-01-02T00:00:00.000Z"),
    ("updatedAt", .str "2024-01-01T00:00:00.000Z")]])]

/-- A fragment with a script, an event handler and a script URL. -/
def sampleFragment : List Node :=
  [.element "p" [⟨"onclick", "x()"⟩, ⟨"class", "c"⟩]
     [.element "script" [] [.text "alert(1)"],
      .element "a" [⟨"href", " JavaScript:alert(1)"⟩] [.text "link"]]]

/-- The tree the HTML parser builds for the markup
`<template><script>alert(1)</script><img src=x onerror=alert(2)></template><b>ok</b>`:
what is written inside the `template` element is its content. -/
def templateFragment : List Node :=
  [.template []
     [.element "script" [] [.text "alert(1)"],
      .element "img" [⟨"src", "x"⟩, ⟨"onerror", "alert(2)"⟩] []],
   .element "b" [] [.text "ok"]]

/-- The tree the HTML parser builds for `<a href="java&#9;script:alert(1)">x</a>`:
the value of the attribute has a tab inside the scheme name. -/
def tabSchemeFragment : List Node :=
  [.element "a" [⟨"href", "java\tscript:alert(1)"⟩] [.text "x"]]

/-- A snapshot with two entries whose ids are arrays that hold the same. -/
def arrayIdSnapshot : JVal :=
  .obj [("articles", .arr [.obj [("id", .arr [.num 1]), ("title", .str "A")],
                           .obj [("id", .arr [.num 1]), ("title", .str "B")]])]

/-- The state after `arrayIdSnapshot` was read in on the about page, with the
editor unlocked and opened on the second article. -/
def arrayIdState : State :=
  openEditor
    (importArticlesFromFile sampleHost { initialState "#/about" with gateUnlocked := true }
      (some arrayIdSnapshot))
    (some "B")

/-- The first article of `arrayIdState`. -/
def arrayIdArticleA : Article :=
  { id := .ref 0 (.arr [.num 1]), title := "A", html := "",
    createdAt := .str (sampleHost.clock 0), updatedAt := .str (sampleHost.clock 1) }

/-- The second article of `arrayIdState`, the one being edited. -/
def arrayIdArticleB : Article :=
  { id := .ref 1 (.arr [.num 1]), title := "B", html := "",
    createdAt := .str (sampleHost.clock 2), updatedAt := .str (sampleHost.clock 3) }

/-- A snapshot whose first entry is empty and whose second entry is `null`. -/
def nullEntrySnapshot : JVal := .obj [("articles", .arr [.obj [], .null])]

/-! # Theorems -/

/-! ## The operator `===` -/

/-- Every value is strictly equal to itself. -/
theorem strictEq_self (a : Val) : strictEq a a = true := by
  cases a <;> simp [strictEq]

/-- Only the same string is strictly equal to a string. -/
theorem strictEq_str_left (s : String) (b : Val) : strictEq (.str s) b = true ↔ b = .str s := by
  cases b
  case str t => simp only [strictEq, beq_iff_eq, Val.str.injEq]; exact eq_comm
  all_goals simp [strictEq]

/-- Only the same string is strictly equal to a string. -/
theorem strictEq_str_right (a : Val) (s : String) : strictEq a (.str s) = true ↔ a = .str s := by
  cases a <;> simp [strictEq]

/-- Strictly equal values are both truthy or both falsy. -/
theorem strictEq_truthy (a b : Val) (h : strictEq a b = true) : a.truthy = b.truthy := by
  cases a <;> cases b <;> simp_all [strictEq, Val.truthy]

/-- Two references are strictly equal exactly when they are the same address,
whatever the objects hold. -/
theorem strictEq_ref (x y : Nat) (c d : JVal) :
    strictEq (.ref x c) (.ref y d) = true ↔ x = y := by
  simp [strictEq]

/-! ## Percent-encoding round trip -/

theorem hexVal_hexDigit (n : Nat) (h : n < 16) : hexVal (hexDigit n) = some n := by
  revert n
  decide

theorem uriTokens_cons (c : Char) (cs : List Char) :
    uriTokens (c :: cs) =
      if c = '%' then
        match cs with
        | h :: l :: rest =>
          match hexVal h, hexVal l with
          | some a, some b => (uriTokens rest).map (fun ts => UriTok.oct (16 * a + b) :: ts)
          | _, _ => none
        | _ => none
      else (uriTokens cs).map (fun ts => UriTok.lit c :: ts) := by
  conv_lhs => rw [uriTokens.eq_def]

theorem uriTokens_lit (c : Char) (cs : List Char) (h : c ≠ '%') :
    uriTokens (c :: cs) = (uriTokens cs).map (fun ts => UriTok.lit c :: ts) := by
  rw [uriTokens_cons, if_neg h]

theorem uriTokens_escapeOctet (b : Nat) (hb : b < 256) (rest : List Char) :
    uriTokens (escapeOctet b ++ rest) = (uriTokens rest).map (fun ts => UriTok.oct b :: ts) := by
  have h1 := hexVal_hexDigit (b / 16) (by omega)
  have h2 := hexVal_hexDigit (b % 16) (by omega)
  have h3 : 16 * (b / 16) + b % 16 = b := by omega
  simp only [escapeOctet, List.cons_append, List.nil_append]
  rw [uriTokens_cons]
  simp [h1, h2, h3]

theorem unreserved_ne_percent (c : Char) (h : isUriUnreserved c = true) : c ≠ '%' := by
  rintro rfl
  revert h
  decide

theorem char_range (c : Char) :
    c.toNat < 0xD800 ∨ (0xDFFF < c.toNat ∧ c.toNat < 0x110000) := by
  have := c.valid
  simpa [Char.toNat, UInt32.isValidChar, Nat.isValidChar] using this

theorem utf8Octets_lt (c : Char) : ∀ b ∈ utf8Octets c, b < 256 := by
  have hr := char_range c
  intro b hb
  unfold utf8Octets at hb
  simp only at hb
  split_ifs at hb <;> simp at hb <;> omega

theorem uriTokens_octets (bs : List Nat) (hbs : ∀ b ∈ bs, b < 256) (rest : List Char) :
    uriTokens (bs.flatMap escapeOctet ++ rest)
      = (uriTokens rest).map (fun ts => bs.map UriTok.oct ++ ts) := by
  induction bs with
  | nil => simp
  | cons b bs ih =>
    have hb := hbs b (by simp)
    have ih1 := ih (fun x hx => hbs x (by simp [hx]))
    simp only [List.flatMap_cons, List.append_assoc, List.map_cons, List.cons_append]
    rw [uriTokens_escapeOctet b hb, ih1]
    cases uriTokens rest <;> simp

theorem uriTokens_encodeChar (c : Char) (rest : List Char) :
    uriTokens (encodeChar c ++ rest) = (uriTokens rest).map (fun ts => charToks c ++ ts) := by
  unfold encodeChar charToks
  by_cases h : isUriUnreserved c = true
  · have hne := unreserved_ne_percent c h
    simp only [h, if_true, List.cons_append, List.nil_append]
    exact uriTokens_lit c rest hne
  · simp only [h, if_false, Bool.false_eq_true]
    exact uriTokens_octets _ (utf8Octets_lt c) rest

theorem decodeToks_lit (c : Char) (ts : List UriTok) :
    decodeToks none (.lit c :: ts) = (decodeToks none ts).map (fun r => c :: r) := by
  conv_lhs => rw [decodeToks]

theorem decodeToks_lead (b : Nat) (ts : List UriTok) :
    decodeToks none (.oct b :: ts) =
      if b < 0x80 then (decodeToks none ts).map (fun r => Char.ofNat b :: r)
      else if b < 0xC0 then none
      else if b < 0xE0 then decodeToks (some ⟨1, b - 0xC0, 0x80⟩) ts
      else if b < 0xF0 then decodeToks (some ⟨2, b - 0xE0, 0x800⟩) ts
      else if b < 0xF8 then decodeToks (some ⟨3, b - 0xF0, 0x10000⟩) ts
      else none := by
  conv_lhs => rw [decodeToks]

theorem decodeToks_more (p : Pending) (b : Nat) (ts : List UriTok)
    (hc : isCont b = true) (hd : ¬ p.due ≤ 1) :
    decodeToks (some p) (.oct b :: ts) =
      decodeToks (some ⟨p.due - 1, p.acc * 64 + (b - 0x80), p.least⟩) ts := by
  conv_lhs => rw [decodeToks]
  simp only [hc, if_true, if_neg hd]

theorem decodeToks_last (p : Pending) (b : Nat) (ts : List UriTok)
    (hc : isCont b = true) (hd : p.due ≤ 1) (h1 : p.least ≤ p.acc * 64 + (b - 0x80))
    (h2 : ¬ (0xD800 ≤ p.acc * 64 + (b - 0x80) ∧ p.acc * 64 + (b - 0x80) ≤ 0xDFFF))
    (h3 : p.acc * 64 + (b - 0x80) ≤ 0x10FFFF) :
    decodeToks (some p) (.oct b :: ts) =
      (decodeToks none ts).map (fun r => Char.ofNat (p.acc * 64 + (b - 0x80)) :: r) := by
  conv_lhs => rw [decodeToks]
  have h2a : (decide (0xD800 ≤ p.acc * 64 + (b - 0x80))
      && decide (p.acc * 64 + (b - 0x80) ≤ 0xDFFF)) = false := by
    simpa using fun h => by omega
  simp only [hc, if_true, if_pos hd, h2a, decide_eq_true h1, decide_eq_true h3,
    Bool.not_false, Bool.and_self]

theorem isCont_low (n : Nat) : isCont (0x80 + n % 64) = true := by
  simp [isCont]
  omega

theorem decodeToks_charToks (c : Char) (ts : List UriTok) :
    decodeToks none (charToks c ++ ts) = (decodeToks none ts).map (fun r => c :: r) := by
  unfold charToks
  by_cases h : isUriUnreserved c = true
  · simp only [h, if_true, List.cons_append, List.nil_append]
    rw [decodeToks_lit]
  · simp only [h, if_false, Bool.false_eq_true]
    have hr := char_range c
    have hc := Char.ofNat_toNat c
    unfold utf8Octets
    simp only
    by_cases h1 : c.toNat < 0x80
    · simp only [h1, if_true, List.map_cons, List.map_nil, List.cons_append, List.nil_append]
      rw [decodeToks_lead, if_pos h1, hc]
    · by_cases h2 : c.toNat < 0x800
      · simp only [h1, h2, if_true, if_false, List.map_cons, List.map_nil, List.cons_append,
          List.nil_append]
        rw [decodeToks_lead, if_neg (by omega), if_neg (by omega), if_pos (by omega)]
        rw [decodeToks_last _ _ _ (isCont_low _) (by simp) (by simp; omega) (by simp; omega)
          (by simp; omega)]
        have e : (0xC0 + c.toNat / 64 - 0xC0) * 64 + (0x80 + c.toNat % 64 - 0x80) = c.toNat := by
          omega
        simp only [e, hc]
      · by_cases h3 : c.toNat < 0x10000
        · simp only [h1, h2, h3, if_true, if_false, List.map_cons, List.map_nil,
            List.cons_append, List.nil_append]
          rw [decodeToks_lead, if_neg (by omega), if_neg (by omega), if_neg (by omega),
            if_pos (by omega)]
          rw [decodeToks_more _ _ _ (isCont_low _) (by simp)]
          rw [decodeToks_last _ _ _ (isCont_low _) (by simp) (by simp; omega) (by simp; omega)
            (by simp; omega)]
          have e : ((0xE0 + c.toNat / 4096 - 0xE0) * 64 + (0x80 + c.toNat / 64 % 64 - 0x80)) * 64
              + (0x80 + c.toNat % 64 - 0x80) = c.toNat := by omega
          simp only [e, hc]
        · simp only [h1, h2, h3, if_true, if_false, List.map_cons, List.map_nil,
            List.cons_append, List.nil_append]
          rw [decodeToks_lead, if_neg (by omega), if_neg (by omega), if_neg (by omega),
            if_neg (by omega), if_pos (by omega)]
          rw [decodeToks_more _ _ _ (isCont_low _) (by simp)]
          rw [decodeToks_more _ _ _ (isCont_low _) (by simp)]
          rw [decodeToks_last _ _ _ (isCont_low _) (by simp) (by simp; omega) (by simp; omega)
            (by simp; omega)]
          have e : (((0xF0 + c.toNat / 262144 - 0xF0) * 64 + (0x80 + c.toNat / 4096 % 64 - 0x80)) * 64
              + (0x80 + c.toNat / 64 % 64 - 0x80)) * 64 + (0x80 + c.toNat % 64 - 0x80) = c.toNat := by
            omega
          simp only [e, hc]

theorem uriTokens_encode (cs : List Char) :
    uriTokens (cs.flatMap encodeChar) = some (cs.flatMap charToks) := by
  induction cs with
  | nil => rfl
  | cons c cs ih =>
    simp only [List.flatMap_cons]
    rw [uriTokens_encodeChar, ih]
    rfl

theorem decodeToks_encode (cs : List Char) :
    decodeToks none (cs.flatMap charToks) = some cs := by
  induction cs with
  | nil => rfl
  | cons c cs ih =>
    simp only [List.flatMap_cons]
    rw [decodeToks_charToks, ih]
    rfl

theorem decodeURIComponent_encodeURIComponent (s : String) :
    decodeURIComponent (encodeURIComponent s) = some s := by
  unfold decodeURIComponent encodeURIComponent
  simp only [uriTokens_encode, decodeToks_encode, Option.map_some']

/-! ## Snapshot round trip -/

theorem openEditor_data (st : State) (t : Option String) :
    (openEditor st t).data = st.data := by
  unfold openEditor
  by_cases hg : st.gateUnlocked = true
  · simp only [hg, Bool.not_true, Bool.false_eq_true, if_false]
    cases t with
    | none => rfl
    | some t =>
      by_cases ht : strTruthy t = true
      · simp only [ht, if_true]
        cases findArticleByTitle st.data.articles t <;> rfl
      · simp [ht]
  · simp only [hg, Bool.not_false, if_true, Bool.not_eq_true] 
    simp [hg, toast]

theorem renderArticle_data (host : Host) (st : State) (t : String) :
    (renderArticle host st t).state.data = st.data := by
  unfold renderArticle
  cases findArticleByTitle st.data.articles t with
  | none => rfl
  | some art =>
    simp only
    split_ifs <;> rfl

theorem renderHome_eq (host : Host) (st st1 : State) (h : renderHome host st = some st1) :
    st1 = st := by
  unfold renderHome at h
  cases hl : homeList host st.data.articles st.searchValue with
  | none => simp [hl] at h
  | some l =>
    simp only [hl] at h
    split_ifs at h
    exact (Option.some.inj h).symm

theorem renderRandom_data (host : Host) (st st1 : State)
    (h : renderRandom host st = some st1) : st1.data = st.data := by
  unfold renderRandom at h
  split_ifs at h
  · rw [← Option.some.inj h]; rfl
  · cases hp : st.data.articles[host.randomIndex st.randoms st.data.articles.length]? with
    | none => simp [hp] at h
    | some p =>
      simp only [hp] at h
      rw [← Option.some.inj h]

/-- Rendering a route leaves the collection alone, whether it returns or
throws. -/
theorem renderRoute_data (host : Host) (st : State) :
    (renderRoute host st).state.data = st.data := by
  unfold renderRoute
  cases hr : routeFromHash st.hash with
  | none => rfl
  | some r =>
    simp only
    cases hn : r.name <;> simp only
    · cases hh : renderHome host { st with currentRoute := r } with
      | none => rfl
      | some st2 => simp only [Outcome.state]; rw [renderHome_eq host _ st2 hh]
    · rfl
    · cases hh : renderRandom host { st with currentRoute := r } with
      | none => rfl
      | some st2 => simp only [Outcome.state]; rw [renderRandom_data host _ st2 hh]
    · simp only [Outcome.state]; rw [openEditor_data]
    · rw [renderArticle_data]

theorem repairEntry_articleJson (host : Host) (st : State) (a : Article)
    (h : a.wellStamped = true) : repairEntry host st (articleJson a) = some (a, st) := by
  obtain ⟨i, t, h, c, u⟩ := a
  simp only [Article.wellStamped, Bool.and_eq_true] at h
  obtain ⟨⟨hi, hc⟩, hu⟩ := h
  cases i <;> simp [Val.isNonEmptyStr] at hi
  cases c <;> simp [Val.isNonEmptyStr] at hc
  cases u <;> simp [Val.isNonEmptyStr] at hu
  simp [repairEntry, articleJson, JVal.get, List.lookup, optTruthy, JVal.truthy, Val.toJson,
    store, hi, hc, hu]

theorem repairEntries_articleJson (host : Host) (st : State) (C : List Article)
    (h : ∀ a ∈ C, a.wellStamped = true) :
    repairEntries host st (C.map articleJson) = some (C, st) := by
  induction C with
  | nil => rfl
  | cons a C ih =>
    have ha := repairEntry_articleJson host st a (h a (by simp))
    have hC := ih (fun x hx => h x (by simp [hx]))
    simp only [List.map_cons, repairEntries, ha, hC]

/-- Whenever the document passes the shape test and every entry can be
repaired, `STATE.data.articles` becomes the list of repaired entries, whatever
the rendering that follows does. -/
theorem importArticlesFromFile_replaces (host : Host) (st st1 : State) (json : JVal)
    (entries : List JVal) (articles : List Article) (ht : json.truthy = true)
    (hg : json.get "articles" = some (.arr entries))
    (hr : repairEntries host st entries = some (articles, st1)) :
    (importArticlesFromFile host st (some json)).data.articles = articles := by
  unfold importArticlesFromFile
  simp only [ht, hg, hr, Bool.not_true, Bool.false_eq_true, if_false]
  split
  · rename_i st3 h3
    have hd := congrArg (fun o => o.state.data) h3
    simp only [renderRoute_data] at hd
    change _ = st3.data at hd
    simp only [toast]
    rw [← hd]
    rfl
  · rename_i st3 h3
    have hd := congrArg (fun o => o.state.data) h3
    simp only [renderRoute_data] at hd
    change _ = st3.data at hd
    rw [← hd]
    rfl

/-- When every entry can be repaired, the map ends in the state the repaired
list comes with. -/
theorem repairReached_of_some (host : Host) (entries : List JVal) (st st1 : State)
    (articles : List Article) (h : repairEntries host st entries = some (articles, st1)) :
    repairReached host st entries = st1 := by
  induction entries generalizing st st1 articles with
  | nil =>
    simp only [repairEntries, Option.some.injEq, Prod.mk.injEq] at h
    exact h.2
  | cons e rest ih =>
    simp only [repairEntries] at h
    cases h1 : repairEntry host st e with
    | none => simp [h1] at h
    | some r =>
      obtain ⟨x, st2⟩ := r
      simp only [h1] at h
      cases h2 : repairEntries host st2 rest with
      | none => simp [h2] at h
      | some r2 =>
        obtain ⟨xs, st3⟩ := r2
        simp only [h2, Option.some.injEq, Prod.mk.injEq] at h
        simp only [repairReached, h1]
        rw [← h.2]
        exact ih st2 st3 xs h2

/-- C1. Round trip: for every collection whose articles have a non-empty string
id, string title and html and non-empty string `createdAt`/`updatedAt`, the
document built by `downloadArticles` (at any clock reading), given back to the
repair step, to `loadArticlesJSON` and to `importArticlesFromFile` in any later
state, yields an article list equal to the collection, in the same order. -/
theorem export_import_roundtrip (host : Host) (st later : State)
    (h : ∀ a ∈ st.data.articles, a.wellStamped = true) :
    repairEntries host later (st.data.articles.map articleJson)
        = some (st.data.articles, later)
      ∧ (loadArticlesJSON host later (some (downloadArticles host st).1)).data.articles
        = st.data.articles
      ∧ (importArticlesFromFile host later (some (downloadArticles host st).1)).data.articles
        = st.data.articles := by
  have hr := repairEntries_articleJson host later st.data.articles h
  refine ⟨hr, ?_, ?_⟩
  · simp [loadArticlesJSON, downloadArticles, nowISO, exportObj, JVal.truthy, JVal.get,
      List.lookup, hr]
  · exact importArticlesFromFile_replaces host later later _ _ _ rfl rfl hr

/-! ## Title normalization -/

theorem collapseSpaces_cons (c : Char) (cs : List Char) :
    collapseSpaces (c :: cs) =
      if isJsSpace c then
        match cs with
        | [] => [' ']
        | d :: _ => if isJsSpace d then collapseSpaces cs else ' ' :: collapseSpaces cs
      else c :: collapseSpaces cs := by
  conv_lhs => rw [collapseSpaces.eq_def]

theorem collapseSpaces_word (c : Char) (cs : List Char) (h : isJsSpace c = false) :
    collapseSpaces (c :: cs) = c :: collapseSpaces cs := by
  rw [collapseSpaces_cons]
  simp [h]

theorem tidy_collapseSpaces (l : List Char) : tidy (collapseSpaces l) = true := by
  induction l with
  | nil => rfl
  | cons c cs ih =>
    rw [collapseSpaces_cons]
    by_cases hc : isJsSpace c = true
    · simp only [hc, if_true]
      cases cs with
      | nil => decide
      | cons d r =>
        simp only
        by_cases hd : isJsSpace d = true
        · simpa [hd] using ih
        · have hd1 : isJsSpace d = false := by simpa using hd
          simp only [hd1, Bool.false_eq_true, if_false]
          rw [collapseSpaces_word d r hd1] at ih ⊢
          have hs : isJsSpace ' ' = true := by decide
          simp only [tidy, hs, if_true, hd1] at ih ⊢
          simpa using ih
    · have hc1 : isJsSpace c = false := by simpa using hc
      simp only [hc1, Bool.false_eq_true, if_false, tidy]
      simpa using ih

theorem collapseSpaces_of_tidy (l : List Char) (h : tidy l = true) : collapseSpaces l = l := by
  induction l with
  | nil => rfl
  | cons c cs ih =>
    rw [collapseSpaces_cons]
    simp only [tidy, Bool.and_eq_true] at h
    obtain ⟨h1, h2⟩ := h
    have ih1 := ih h2
    by_cases hc : isJsSpace c = true
    · simp only [hc, if_true, Bool.and_eq_true, beq_iff_eq] at h1 ⊢
      obtain ⟨rfl, h3⟩ := h1
      cases cs with
      | nil => rfl
      | cons d r =>
        simp only [Bool.not_eq_true'] at h3
        simp only [h3, Bool.false_eq_true, if_false, ih1]
    · simp [hc, ih1]

theorem collapseSpaces_idem (l : List Char) :
    collapseSpaces (collapseSpaces l) = collapseSpaces l :=
  collapseSpaces_of_tidy _ (tidy_collapseSpaces l)

theorem collapseSpaces_getLast (l : List Char) (c : Char) (h : l.getLast? = some c)
    (hc : isJsSpace c = false) : (collapseSpaces l).getLast? = some c := by
  induction l with
  | nil => simp at h
  | cons x xs ih =>
    rw [collapseSpaces_cons]
    cases xs with
    | nil =>
      simp at h
      subst h
      simp [hc, collapseSpaces]
    | cons d r =>
      rw [List.getLast?_cons_cons] at h
      have ih1 := ih h
      by_cases hx : isJsSpace x = true
      · simp only [hx, if_true]
        by_cases hd : isJsSpace d = true
        · simpa [hd] using ih1
        · simp only [hd, if_false, Bool.false_eq_true]
          rw [List.getLast?_cons, ih1]
          rfl
      · simp only [hx, if_false, Bool.false_eq_true]
        rw [List.getLast?_cons, ih1]
        rfl

theorem collapseSpaces_head (l : List Char) (c : Char) (h : l.head? = some c)
    (hc : isJsSpace c = false) : (collapseSpaces l).head? = some c := by
  cases l with
  | nil => simp at h
  | cons x xs =>
    simp at h
    subst h
    rw [collapseSpaces_word x xs hc]
    rfl

theorem collapseSpaces_eq_nil (l : List Char) (h : collapseSpaces l = []) : l = [] := by
  induction l with
  | nil => rfl
  | cons x xs ih =>
    rw [collapseSpaces_cons] at h
    by_cases hx : isJsSpace x = true
    · simp only [hx, if_true] at h
      cases xs with
      | nil => simp at h
      | cons d r =>
        simp only at h
        by_cases hd : isJsSpace d = true
        · simp only [hd, if_true] at h
          exact absurd (ih h) (by simp)
        · simp [hd] at h
    · simp [hx] at h

theorem trimChars_head (l : List Char) (c : Char) (h : (trimChars l).head? = some c) :
    isJsSpace c = false := by
  have hp : trimChars l <+: l.dropWhile isJsSpace := List.rdropWhile_prefix isJsSpace _
  obtain ⟨t, ht⟩ := hp
  obtain ⟨ys, hys⟩ := List.head?_eq_some_iff.1 h
  have h1 := List.head?_dropWhile_not isJsSpace l
  rw [← ht, hys] at h1
  simpa using h1

theorem trimChars_getLast (l : List Char) (c : Char) (h : (trimChars l).getLast? = some c) :
    isJsSpace c = false := by
  have hne : List.rdropWhile isJsSpace (l.dropWhile isJsSpace) ≠ [] := by
    intro h0
    have : trimChars l = [] := h0
    rw [this] at h
    simp at h
  have h1 := List.rdropWhile_last_not isJsSpace (l.dropWhile isJsSpace) hne
  have h2 : (List.rdropWhile isJsSpace (l.dropWhile isJsSpace)).getLast? = some c := h
  rw [List.getLast?_eq_getLast _ hne] at h2
  rw [← Option.some.inj h2]
  simpa using h1

theorem trimChars_of_edges (l : List Char)
    (hh : ∀ c, l.head? = some c → isJsSpace c = false)
    (hl : ∀ c, l.getLast? = some c → isJsSpace c = false) : trimChars l = l := by
  have h1 : l.dropWhile isJsSpace = l := by
    cases l with
    | nil => rfl
    | cons x xs =>
      have := hh x rfl
      simp [List.dropWhile, this]
  show List.rdropWhile isJsSpace (l.dropWhile isJsSpace) = l
  rw [h1, List.rdropWhile_eq_self_iff]
  intro hne
  have := hl (l.getLast hne) (List.getLast?_eq_getLast _ hne)
  simp [this]

theorem normalizeTitle_idem (s : String) :
    normalizeTitle (normalizeTitle s) = normalizeTitle s := by
  unfold normalizeTitle
  simp only
  have ht : trimChars (collapseSpaces (trimChars s.data)) = collapseSpaces (trimChars s.data) := by
    apply trimChars_of_edges
    · intro c hc
      cases hl : trimChars s.data with
      | nil => rw [hl] at hc; simp [collapseSpaces] at hc
      | cons x xs =>
        have hx := trimChars_head s.data x (by rw [hl]; rfl)
        rw [hl, collapseSpaces_word x xs hx] at hc
        simp at hc
        rw [← hc]
        exact hx
    · intro c hc
      cases hl : (trimChars s.data).getLast? with
      | none =>
        have : trimChars s.data = [] := by simpa using hl
        rw [this] at hc
        simp [collapseSpaces] at hc
      | some y =>
        have hy := trimChars_getLast s.data y hl
        have := collapseSpaces_getLast _ y hl hy
        rw [this] at hc
        rw [← Option.some.inj hc]
        exact hy
  rw [ht, collapseSpaces_idem]

/-! ## Saving -/

theorem strTruthy_iff (s : String) : strTruthy s = true ↔ s ≠ "" := by
  obtain ⟨l⟩ := s
  cases l <;> simp [strTruthy, String.ext_iff]



/-- The article `saveEditor` appends in create mode. -/
theorem saveEditor_create (host : Host) (st : State) (u d : String)
    (he : st.editingArticleId.truthy = false) (ht : normalizeTitle u ≠ "")
    (hf : ∀ e, findArticleByTitle st.data.articles (normalizeTitle u) = some e →
      strictEq e.id st.editingArticleId = true) :
    saveEditor host st u d =
      { st with
        data := { st.data with
          articles := st.data.articles ++
            [{ id := .str (host.uuid st.uuids), title := normalizeTitle u,
               html := sanitizeHTML host d, createdAt := .str (host.clock st.ticks),
               updatedAt := .str (host.clock (st.ticks + 1)) }] },
        toasts := st.toasts ++ [.saved],
        hash := "#/" ++ encodeURIComponent (normalizeTitle u),
        ticks := st.ticks + 2, uuids := st.uuids + 1 } := by
  have ht1 : strTruthy (normalizeTitle u) = true := (strTruthy_iff _).2 ht
  cases hfe : findArticleByTitle st.data.articles (normalizeTitle u) with
  | none => simp [saveEditor, ht1, hfe, he, toast, nowISO, randomUUID]
  | some e =>
    have := hf e hfe
    simp [saveEditor, ht1, hfe, he, toast, nowISO, randomUUID, this]

theorem saveEditor_emptyTitle (host : Host) (st : State) (u d : String)
    (ht : normalizeTitle u = "") : saveEditor host st u d = toast st .emptyTitle := by
  have ht1 : strTruthy (normalizeTitle u) = false := by
    rw [ht]
    rfl
  simp [saveEditor, ht1]

theorem saveEditor_duplicate (host : Host) (st : State) (u d : String) (e : Article)
    (ht : normalizeTitle u ≠ "")
    (hf : findArticleByTitle st.data.articles (normalizeTitle u) = some e)
    (hid : strictEq e.id st.editingArticleId = false) :
    saveEditor host st u d = toast st .duplicateTitle := by
  have ht1 : strTruthy (normalizeTitle u) = true := (strTruthy_iff _).2 ht
  simp [saveEditor, ht1, hf, hid]

theorem saveEditor_edit (host : Host) (st : State) (u d : String) (idx : Nat) (old : Article)
    (he : st.editingArticleId.truthy = true) (ht : normalizeTitle u ≠ "")
    (hf : ∀ e, findArticleByTitle st.data.articles (normalizeTitle u) = some e →
      strictEq e.id st.editingArticleId = true)
    (hidx : findArticleIndexById st.data.articles st.editingArticleId = some idx)
    (hold : st.data.articles[idx]? = some old) :
    saveEditor host st u d =
      { st with
        data := { st.data with
          articles := st.data.articles.set idx
            { old with title := normalizeTitle u, html := sanitizeHTML host d,
                       updatedAt := .str (host.clock st.ticks) } },
        toasts := st.toasts ++ [.saved],
        hash := "#/" ++ encodeURIComponent (normalizeTitle u),
        ticks := st.ticks + 1 } := by
  have ht1 : strTruthy (normalizeTitle u) = true := (strTruthy_iff _).2 ht
  cases hfe : findArticleByTitle st.data.articles (normalizeTitle u) with
  | none => simp [saveEditor, ht1, hfe, he, hidx, hold, toast, nowISO]
  | some e =>
    have := hf e hfe
    simp [saveEditor, ht1, hfe, he, hidx, hold, toast, nowISO, this]

theorem saveEditor_accepted (host : Host) (st : State) (u d : String)
    (ht : normalizeTitle u ≠ "")
    (hf : ∀ e, findArticleByTitle st.data.articles (normalizeTitle u) = some e →
      strictEq e.id st.editingArticleId = true) :
    (saveEditor host st u d).toasts = st.toasts ++ [.saved] := by
  have ht1 : strTruthy (normalizeTitle u) = true := (strTruthy_iff _).2 ht
  have hc : (match findArticleByTitle st.data.articles (normalizeTitle u) with
      | some e => !strictEq e.id st.editingArticleId
      | none => false) = false := by
    cases hfe : findArticleByTitle st.data.articles (normalizeTitle u) with
    | none => rfl
    | some e => simp [hf e hfe]
  unfold saveEditor
  simp only [ht1, hc, Bool.not_true, Bool.false_eq_true, if_false]
  by_cases he : st.editingArticleId.truthy = true
  · simp only [he, if_true]
    cases findArticleIndexById st.data.articles st.editingArticleId with
    | none => rfl
    | some idx =>
      simp only
      cases st.data.articles[idx]? <;> rfl
  · simp only [he, Bool.false_eq_true, if_false]
    rfl

theorem findArticleByTitle_append_none (l : List Article) (a : Article) (t : String)
    (hl : findArticleByTitle l t = none) (ha : normalizeTitle a.title ≠ normalizeTitle t) :
    findArticleByTitle (l ++ [a]) t = none := by
  unfold findArticleByTitle at *
  simp only [List.find?_append, hl, Option.none_or]
  simp [ha]

theorem findArticleByTitle_append_some (l l2 : List Article) (a : Article) (t : String)
    (hl : findArticleByTitle l t = none) (ha : normalizeTitle a.title = normalizeTitle t) :
    findArticleByTitle (l ++ a :: l2) t = some a := by
  unfold findArticleByTitle at *
  simp only [List.find?_append, hl, Option.none_or]
  simp [ha]

theorem findArticleByTitle_append_left (l l2 : List Article) (a : Article) (t : String)
    (hl : findArticleByTitle l t = some a) : findArticleByTitle (l ++ l2) t = some a := by
  unfold findArticleByTitle at *
  simp [List.find?_append, hl]

/-- C2. `saveEditor` rejects a save in exactly two cases, and then changes
nothing but the message shown: with the empty-title message when the
normalized draft title is blank, and with the duplicate-title message when
`findArticleByTitle` finds an article whose id differs from
`STATE.editingArticleId` (by the operator `!==`, which tells two arrays or
objects apart unless they are the same object); in every other case the save
is accepted. In
particular, from a state in create mode whose collection holds neither of two
non-blank titles with different normalizations, creating both succeeds, a
further creation under a title normalizing to the first is rejected, and
saving an edit of the article holding the first title is accepted. -/
theorem saveEditor_rejects_exactly (host : Host) (st : State) (u d u2 d2 u3 d3 : String) :
    (normalizeTitle u = "" → saveEditor host st u d = toast st .emptyTitle)
    ∧ (∀ e, normalizeTitle u ≠ "" →
        findArticleByTitle st.data.articles (normalizeTitle u) = some e →
        strictEq e.id st.editingArticleId = false →
        saveEditor host st u d = toast st .duplicateTitle)
    ∧ (normalizeTitle u ≠ "" →
        (∀ e, findArticleByTitle st.data.articles (normalizeTitle u) = some e →
          strictEq e.id st.editingArticleId = true) →
        (saveEditor host st u d).toasts = st.toasts ++ [.saved])
    ∧ (st.editingArticleId = .null → st.gateUnlocked = true →
        normalizeTitle u ≠ "" → normalizeTitle u2 ≠ "" →
        normalizeTitle u ≠ normalizeTitle u2 →
        findArticleByTitle st.data.articles (normalizeTitle u) = none →
        findArticleByTitle st.data.articles (normalizeTitle u2) = none →
        normalizeTitle u3 = normalizeTitle u →
        (saveEditor host st u d).toasts = st.toasts ++ [.saved]
        ∧ (saveEditor host (saveEditor host st u d) u2 d2).toasts
            = st.toasts ++ [.saved, .saved]
        ∧ (∃ a1 a2, a1.title = normalizeTitle u ∧ a2.title = normalizeTitle u2 ∧
            (saveEditor host (saveEditor host st u d) u2 d2).data.articles
              = st.data.articles ++ [a1, a2])
        ∧ saveEditor host (saveEditor host (saveEditor host st u d) u2 d2) u3 d3
            = toast (saveEditor host (saveEditor host st u d) u2 d2) .duplicateTitle
        ∧ (saveEditor host
              (openEditor (saveEditor host (saveEditor host st u d) u2 d2)
                (some (normalizeTitle u))) u3 d3).toasts
            = st.toasts ++ [.saved, .saved, .saved]) := by
  refine ⟨saveEditor_emptyTitle host st u d, fun e => saveEditor_duplicate host st u d e,
    saveEditor_accepted host st u d, ?_⟩
  intro h0 hg hn1 hn2 hne hf1 hf2 h3
  have e1 := saveEditor_create host st u d (by rw [h0]; rfl) hn1
    (fun e he => by rw [hf1] at he; cases he)
  have hf2a : findArticleByTitle (saveEditor host st u d).data.articles (normalizeTitle u2)
      = none := by
    rw [e1]
    apply findArticleByTitle_append_none _ _ _ hf2
    simp only [normalizeTitle_idem]
    exact hne
  have e2 := saveEditor_create host (saveEditor host st u d) u2 d2
    (by rw [e1]; simp only [h0]; rfl) hn2 (fun e he => by rw [hf2a] at he; cases he)
  have harts : (saveEditor host (saveEditor host st u d) u2 d2).data.articles
      = st.data.articles ++
        [{ id := .str (host.uuid st.uuids), title := normalizeTitle u,
           html := sanitizeHTML host d, createdAt := .str (host.clock st.ticks),
           updatedAt := .str (host.clock (st.ticks + 1)) },
         { id := .str (host.uuid (st.uuids + 1)), title := normalizeTitle u2,
           html := sanitizeHTML host d2, createdAt := .str (host.clock (st.ticks + 2)),
           updatedAt := .str (host.clock (st.ticks + 2 + 1)) }] := by
    rw [e2, e1]
    simp
  have hfind : findArticleByTitle (saveEditor host (saveEditor host st u d) u2 d2).data.articles
      (normalizeTitle u3) = some
        { id := .str (host.uuid st.uuids), title := normalizeTitle u,
          html := sanitizeHTML host d, createdAt := .str (host.clock st.ticks),
          updatedAt := .str (host.clock (st.ticks + 1)) } := by
    rw [harts]
    apply findArticleByTitle_append_some
    · rw [h3]; exact hf1
    · simp only [h3]
  have hed2 : (saveEditor host (saveEditor host st u d) u2 d2).editingArticleId = .null := by
    rw [e2, e1]
    exact h0
  have hg2 : (saveEditor host (saveEditor host st u d) u2 d2).gateUnlocked = true := by
    rw [e2, e1]
    exact hg
  have ht2 : (saveEditor host (saveEditor host st u d) u2 d2).toasts
      = st.toasts ++ [.saved, .saved] := by
    rw [e2, e1]
    simp
  refine ⟨by rw [e1], ht2, ⟨_, _, rfl, rfl, harts⟩, ?_, ?_⟩
  · apply saveEditor_duplicate host _ u3 d3 _ (by rw [h3]; exact hn1) hfind
    rw [hed2]
    rfl
  · have hfind1 : findArticleByTitle
        (saveEditor host (saveEditor host st u d) u2 d2).data.articles (normalizeTitle u) = some
          { id := .str (host.uuid st.uuids), title := normalizeTitle u,
            html := sanitizeHTML host d, createdAt := .str (host.clock st.ticks),
            updatedAt := .str (host.clock (st.ticks + 1)) } := by
      have := hfind
      rw [h3] at this
      exact this
    have hopen : openEditor (saveEditor host (saveEditor host st u d) u2 d2)
        (some (normalizeTitle u)) =
        { saveEditor host (saveEditor host st u d) u2 d2 with
          editingArticleId := .str (host.uuid st.uuids) } := by
      have hn1t : strTruthy (normalizeTitle u) = true := (strTruthy_iff _).2 hn1
      simp only [openEditor, hg2, Bool.not_true, Bool.false_eq_true, if_false, hn1t, if_true,
        hfind1]
    rw [saveEditor_accepted host _ u3 d3 (by rw [h3]; exact hn1)]
    · rw [hopen]
      simp only [ht2]
      simp
    · intro e he
      rw [hopen] at he ⊢
      simp only at he ⊢
      rw [hfind] at he
      rw [← Option.some.inj he]
      exact strictEq_self _

/-! ## Sanitizer -/

theorem removeAttribute_eq_filter (attrs : List Attr) (n : String)
    (h : (attrs.map Attr.name).Nodup) :
    removeAttribute attrs n = attrs.filter (fun a => a.name != n) := by
  induction attrs with
  | nil => rfl
  | cons a as ih =>
    simp only [List.map_cons, List.nodup_cons] at h
    obtain ⟨h1, h2⟩ := h
    unfold removeAttribute at ih ⊢
    by_cases ha : a.name = n
    · subst ha
      have : as.filter (fun b => b.name != a.name) = as := by
        rw [List.filter_eq_self]
        intro b hb
        have : b.name ≠ a.name := fun e => h1 (by rw [← e]; exact List.mem_map_of_mem _ hb)
        simpa using this
      simp [List.eraseP_cons, this]
    · simp [List.eraseP_cons, ha, ih h2]

theorem scrubStep_eq (host : Host) (cur : List Attr) (attr : Attr)
    (h : (cur.map Attr.name).Nodup) :
    scrubStep host cur attr =
      cur.filter (fun a => !(isDangerous host attr && attr.name == a.name)) := by
  have hf : ∀ b : Bool, cur.filter (fun a => !(b && attr.name == a.name)) =
      if b then cur.filter (fun a => a.name != attr.name) else cur := by
    intro b
    cases b
    · simp
    · simp only [Bool.true_and, if_true]
      congr 1
      funext a
      by_cases e : a.name = attr.name
      · simp [e]
      · have e2 : ¬ attr.name = a.name := fun h => e h.symm
        simp [e, e2, bne]
  rw [hf]
  unfold scrubStep isDangerous
  simp only
  by_cases h1 : startsWith (host.toLowerCase attr.name) "on" = true
  · have h2 : (host.toLowerCase attr.name == "href" || host.toLowerCase attr.name == "src")
        = false := by
      by_contra hc
      simp only [Bool.not_eq_false, Bool.or_eq_true, beq_iff_eq] at hc
      rcases hc with hc | hc <;> rw [hc] at h1 <;> revert h1 <;> decide
    simp only [h1, h2, if_true, Bool.false_and, Bool.false_eq_true, if_false, Bool.true_or]
    exact removeAttribute_eq_filter cur _ h
  · simp only [h1, Bool.false_eq_true, if_false, Bool.false_or]
    split_ifs
    · exact removeAttribute_eq_filter cur _ h
    · rfl

theorem nodup_names_filter (cur : List Attr) (p : Attr → Bool)
    (h : (cur.map Attr.name).Nodup) : ((cur.filter p).map Attr.name).Nodup :=
  List.Nodup.sublist (List.Sublist.map _ (List.filter_sublist cur)) h

theorem foldl_scrubStep (host : Host) (xs cur : List Attr) (h : (cur.map Attr.name).Nodup) :
    xs.foldl (scrubStep host) cur =
      cur.filter (fun a => !xs.any (fun x => isDangerous host x && x.name == a.name)) := by
  induction xs generalizing cur with
  | nil => simp
  | cons x xs ih =>
    rw [List.foldl_cons, scrubStep_eq host cur x h, ih _ (nodup_names_filter cur _ h),
      List.filter_filter]
    congr 1
    funext a
    simp only [List.any_cons, Bool.not_or, Bool.and_comm]

/-- On an element whose attribute names are distinct the attribute loop keeps
exactly the attributes that are not dangerous, in their order. -/
theorem scrubAttrs_eq_filter (host : Host) (attrs : List Attr)
    (h : (attrs.map Attr.name).Nodup) :
    scrubAttrs host attrs = attrs.filter (fun a => !isDangerous host a) := by
  unfold scrubAttrs
  rw [foldl_scrubStep host attrs attrs h]
  apply List.filter_congr
  intro a ha
  congr 1
  by_cases hd : isDangerous host a = true
  · rw [hd, List.any_eq_true]
    exact ⟨a, ha, by simp [hd]⟩
  · have hd1 : isDangerous host a = false := by simpa using hd
    rw [hd1, List.any_eq_false]
    intro x hx
    by_cases e : x.name = a.name
    · have hxa : x = a := by
        have hinj := List.inj_on_of_nodup_map h
        exact hinj hx ha e
      rw [hxa]
      simp [hd1]
    · simp [e]

mutual
theorem Node.allElements_dropScripts (p : String → List Attr → Bool) :
    ∀ n : Node, n.allElements p = true → n.dropScripts.allElements p = true
  | .text _, _ => by simp [Node.dropScripts, Node.allElements]
  | .element tag attrs kids, h => by
    simp only [Node.allElements, Bool.and_eq_true] at h
    simp only [Node.dropScripts, Node.allElements, Bool.and_eq_true]
    exact ⟨h.1, allElementsList_dropScripts p kids h.2⟩
  | .template attrs content, h => by
    simpa only [Node.dropScripts] using h
theorem allElementsList_dropScripts (p : String → List Attr → Bool) :
    ∀ l : List Node, allElementsList p l = true → allElementsList p (dropScriptsList l) = true
  | [], _ => by simp [dropScriptsList, allElementsList]
  | n :: ns, h => by
    simp only [allElementsList, Bool.and_eq_true] at h
    simp only [dropScriptsList]
    split_ifs
    · exact allElementsList_dropScripts p ns h.2
    · simp only [allElementsList, Bool.and_eq_true]
      exact ⟨Node.allElements_dropScripts p n h.1, allElementsList_dropScripts p ns h.2⟩
end

mutual
theorem Node.noScript_dropScripts :
    ∀ n : Node, n.isScript = false →
      n.dropScripts.allElements (fun tag _ => tag != "script") = true
  | .text _, _ => by simp [Node.dropScripts, Node.allElements]
  | .element tag attrs kids, h => by
    simp only [Node.isScript] at h
    simp only [Node.dropScripts, Node.allElements, Bool.and_eq_true]
    exact ⟨by simpa [bne] using h, noScript_dropScriptsList kids⟩
  | .template attrs content, _ => by
    simp only [Node.dropScripts, Node.allElements]
    decide
theorem noScript_dropScriptsList :
    ∀ l : List Node, allElementsList (fun tag _ => tag != "script") (dropScriptsList l) = true
  | [] => by simp [dropScriptsList, allElementsList]
  | n :: ns => by
    simp only [dropScriptsList]
    split_ifs with hn
    · exact noScript_dropScriptsList ns
    · simp only [allElementsList, Bool.and_eq_true]
      exact ⟨Node.noScript_dropScripts n (by simpa using hn), noScript_dropScriptsList ns⟩
end

mutual
theorem Node.scrub_safe (host : Host) :
    ∀ n : Node, n.allElements (fun tag _ => tag != "script") = true →
      n.allElements (fun _ attrs => decide (attrs.map Attr.name).Nodup) = true →
      (n.scrub host).allElements (isSafeElement host) = true
  | .text _, _, _ => by simp [Node.scrub, Node.allElements]
  | .element tag attrs kids, h1, h2 => by
    simp only [Node.allElements, Bool.and_eq_true, decide_eq_true_eq] at h1 h2
    simp only [Node.scrub, Node.allElements, Bool.and_eq_true, isSafeElement]
    refine ⟨⟨h1.1, ?_⟩, scrubList_safe host kids h1.2 h2.2⟩
    rw [scrubAttrs_eq_filter host attrs h2.1, List.all_eq_true]
    intro a ha
    exact (List.mem_filter.1 ha).2
  | .template attrs content, _, h2 => by
    simp only [Node.allElements, decide_eq_true_eq] at h2
    simp only [Node.scrub, Node.allElements, Bool.and_eq_true, isSafeElement]
    refine ⟨by decide, ?_⟩
    rw [scrubAttrs_eq_filter host attrs h2, List.all_eq_true]
    intro a ha
    exact (List.mem_filter.1 ha).2
theorem scrubList_safe (host : Host) :
    ∀ l : List Node, allElementsList (fun tag _ => tag != "script") l = true →
      allElementsList (fun _ attrs => decide (attrs.map Attr.name).Nodup) l = true →
      allElementsList (isSafeElement host) (scrubList host l) = true
  | [], _, _ => by simp [scrubList, allElementsList]
  | n :: ns, h1, h2 => by
    simp only [allElementsList, Bool.and_eq_true] at h1 h2
    simp only [scrubList, allElementsList, Bool.and_eq_true]
    exact ⟨Node.scrub_safe host n h1.1 h2.1, scrubList_safe host ns h1.2 h2.2⟩
end

/-- What the sanitizer does achieve, on the elements its selectors reach. For
every fragment tree whose elements have pairwise distinct attribute names
(every tree the HTML parser builds), in the tree `sanitizeHTML` serialises no
element outside the content of a `template` element is a `script` element, has
an attribute whose lower-cased name begins with `on`, or has an attribute whose
lower-cased name is `href` or `src` and whose trimmed, lower-cased value begins
with `javascript:`. -/
theorem sanitizeTree_safe (host : Host) (frag : List Node)
    (h : distinctAttrNames frag = true) :
    allElementsList (isSafeElement host) (sanitizeTree host frag) = true :=
  scrubList_safe host _ (noScript_dropScriptsList frag)
    (allElementsList_dropScripts _ frag h)

/-- The sanitizer leaves a fragment made of `template` elements without
attributes as it is, whatever their content. -/
theorem sanitizeTree_templates (host : Host) (contents : List (List Node)) :
    sanitizeTree host (contents.map (fun c => Node.template [] c))
      = contents.map (fun c => Node.template [] c) := by
  induction contents with
  | nil => rfl
  | cons c cs ih =>
    unfold sanitizeTree at ih ⊢
    simp only [List.map_cons, dropScriptsList, Node.isScript, Bool.false_eq_true, if_false,
      Node.dropScripts, scrubList, Node.scrub, ih]
    rfl

/-- C3, the code at the failing input. The tree parsed from
`<template><script>alert(1)</script><img src=x onerror=alert(2)></template><b>ok</b>`
has pairwise distinct attribute names and comes out of the tree part of
`sanitizeHTML` unchanged, on every host: the markup `sanitizeHTML` returns for
it still has the `script` element and the attribute `onerror`, against the
comment of the function (`removes <script> tags`, `removes on* attributes`).
The selectors `script` and `*` are run on `tpl.content` and do not reach the
content of a `template` element inside it, which `tpl.innerHTML` prints. -/
theorem sanitizeTree_keeps_template_content (host : Host) :
    distinctAttrNames templateFragment = true
    ∧ sanitizeTree host templateFragment = templateFragment
    ∧ allPrintedList (fun tag _ => tag != "script") (sanitizeTree host templateFragment) = false
    ∧ allPrintedList (fun _ attrs => attrs.all (fun a => !startsWith a.name "on"))
        (sanitizeTree host templateFragment) = false
    ∧ allPrintedList (isSafeElement host) (sanitizeTree host templateFragment) = false := by
  have h : sanitizeTree host templateFragment = templateFragment := rfl
  refine ⟨by decide, h, ?_, ?_, ?_⟩
  · rw [h]
    decide
  · rw [h]
    decide
  · rw [h]
    simp [templateFragment, allPrintedList, Node.allPrinted, isSafeElement]

/-- On a host whose parser builds `templateFragment` for a text, `sanitizeHTML`
returns for that text the serialisation of the tree as it was parsed. -/
theorem sanitizeHTML_template_unchanged (host : Host) (html : String)
    (hp : host.parseHTML html = templateFragment) :
    sanitizeHTML host html = host.printHTML (host.parseHTML html) := by
  unfold sanitizeHTML
  rw [hp]
  rfl

/-! ## Route resolution -/

theorem hexDigit_ne_slash (n : Nat) (h : n < 16) : hexDigit n ≠ '/' := by
  revert n
  decide

theorem unreserved_ne_slash (c : Char) (h : isUriUnreserved c = true) : c ≠ '/' := by
  rintro rfl
  revert h
  decide

theorem encodeChar_no_slash (c : Char) : '/' ∉ encodeChar c := by
  unfold encodeChar
  split_ifs with h
  · simp only [List.mem_singleton]
    exact fun e => unreserved_ne_slash c h e.symm
  · simp only [List.mem_flatMap, escapeOctet, List.mem_cons, List.mem_singleton,
      List.not_mem_nil, or_false, not_exists, not_and]
    intro b hmem hb
    have hlt := utf8Octets_lt c b hmem
    rcases hb with hb | hb | hb
    · revert hb; decide
    · exact hexDigit_ne_slash _ (by omega) hb.symm
    · exact hexDigit_ne_slash _ (by omega) hb.symm

theorem encodeURIComponent_no_slash (s : String) : '/' ∉ (encodeURIComponent s).data := by
  unfold encodeURIComponent
  simp only [List.mem_flatMap, not_exists, not_and]
  exact fun c _ => encodeChar_no_slash c

theorem splitSlash_no_slash (l : List Char) (h : '/' ∉ l) : splitSlash l = [l] := by
  induction l with
  | nil => rfl
  | cons c cs ih =>
    simp only [List.mem_cons, not_or] at h
    have hc : c ≠ '/' := fun e => h.1 e.symm
    simp only [splitSlash, hc, if_false, ih h.2]

/-- C4. `routeFromHash` resolves the documented fragments: the empty hash and
`#/` give home, `#/about` gives about, `#/random` gives random, `#/edit` gives
edit without argument, `#/edit/` followed by the percent-encoding of a
non-empty title `t` gives edit with argument `t`, and `#/Foo%20Bar` gives the
article route with argument `Foo Bar`. -/
theorem routeFromHash_documented (t : String) (ht : t ≠ "") :
    routeFromHash "" = some { name := .home, arg := none }
    ∧ routeFromHash "#/" = some { name := .home, arg := none }
    ∧ routeFromHash "#/about" = some { name := .about, arg := none }
    ∧ routeFromHash "#/random" = some { name := .random, arg := none }
    ∧ routeFromHash "#/edit" = some { name := .edit, arg := none }
    ∧ routeFromHash ("#/edit/" ++ encodeURIComponent t) = some { name := .edit, arg := some t }
    ∧ routeFromHash "#/Foo%20Bar" = some { name := .article, arg := some "Foo Bar" } := by
  refine ⟨by decide, by decide, by decide, by decide, by decide, ?_, by decide⟩
  have hns := encodeURIComponent_no_slash t
  have hd : ("#/edit/" ++ encodeURIComponent t).data
      = '#' :: '/' :: 'e' :: 'd' :: 'i' :: 't' :: '/' :: (encodeURIComponent t).data := by
    rw [String.data_append]
    rfl
  have htr : strTruthy ("#/edit/" ++ encodeURIComponent t) = true := by
    simp [strTruthy, hd]
  have hsplit : splitSlash ('e' :: 'd' :: 'i' :: 't' :: '/' :: (encodeURIComponent t).data)
      = ['e', 'd', 'i', 't'] :: [(encodeURIComponent t).data] := by
    simp [splitSlash, splitSlash_no_slash _ hns]
  have hedit : decodeURIComponent ⟨['e', 'd', 'i', 't']⟩ = some "edit" := by decide
  have htt : strTruthy t = true := (strTruthy_iff t).2 ht
  unfold routeFromHash
  simp only [htr, if_true, hd, List.drop_succ_cons, List.drop_zero, hsplit, List.headD_cons,
    List.tail_cons, joinSlash, hedit]
  have heta : (⟨(encodeURIComponent t).data⟩ : String) = encodeURIComponent t := rfl
  simp [List.intercalate, heta, decodeURIComponent_encodeURIComponent, htt]

/-- C5, counterexample. The remainder `about/x` is non-empty, differs from
`about` and from `random`, does not begin with `edit` and percent-decodes to
itself, yet `routeFromHash` returns the about route and not the article route
with argument `about/x`: only the part before the first `/` is compared with
the reserved names. -/
theorem routeFromHash_reserved_first_segment :
    ("about/x" ≠ "" ∧ "about/x" ≠ "about" ∧ "about/x" ≠ "random"
      ∧ startsWith "about/x" "edit" = false
      ∧ decodeURIComponent "about/x" = some "about/x")
    ∧ routeFromHash ("#/" ++ "about/x") = some { name := .about, arg := none }
    ∧ routeFromHash ("#/" ++ "about/x") ≠ some { name := .article, arg := some "about/x" } := by
  decide

/-- C5, amended. For every fragment `#/` followed by `r`, when the part of `r`
before its first `/` percent-decodes to a string other than the empty string,
`about`, `random` and `edit`, and `r` as a whole percent-decodes to `title`,
`routeFromHash` returns the route named article with argument `title`. -/
theorem routeFromHash_article (r head title : String)
    (hhead : decodeURIComponent ⟨(splitSlash r.data).headD []⟩ = some head)
    (h1 : head ≠ "") (h2 : head ≠ "about") (h3 : head ≠ "random") (h4 : head ≠ "edit")
    (htitle : decodeURIComponent r = some title) :
    routeFromHash ("#/" ++ r) = some { name := .article, arg := some title } := by
  have hr : r.data ≠ [] := by
    intro h0
    rw [h0] at hhead
    have : decodeURIComponent ⟨(splitSlash []).headD []⟩ = some "" := by decide
    rw [this] at hhead
    exact h1 (Option.some.inj hhead).symm
  have hd : ("#/" ++ r).data = '#' :: '/' :: r.data := by
    rw [String.data_append]
    rfl
  have htr : strTruthy ("#/" ++ r) = true := by simp [strTruthy, hd]
  have hne : r.data.isEmpty = false := by
    cases hl : r.data with
    | nil => exact absurd hl hr
    | cons _ _ => rfl
  have heta : (⟨r.data⟩ : String) = r := rfl
  unfold routeFromHash
  simp only [htr, if_true, hd, List.drop_succ_cons, List.drop_zero, hne, Bool.false_eq_true,
    if_false, hhead, h1, h2, h3, h4, heta, htitle]

/-- C5, amended: an instance. The fragment `#/Foo%20Bar/Baz` resolves to the
article `Foo Bar/Baz`. -/
theorem routeFromHash_article_witness :
    (decodeURIComponent ⟨(splitSlash "Foo%20Bar/Baz".data).headD []⟩ = some "Foo Bar"
      ∧ "Foo Bar" ≠ "" ∧ "Foo Bar" ≠ "about" ∧ "Foo Bar" ≠ "random" ∧ "Foo Bar" ≠ "edit"
      ∧ decodeURIComponent "Foo%20Bar/Baz" = some "Foo Bar/Baz")
    ∧ routeFromHash ("#/" ++ "Foo%20Bar/Baz")
        = some { name := .article, arg := some "Foo Bar/Baz" } :=
  ⟨by decide,
   routeFromHash_article "Foo%20Bar/Baz" "Foo Bar" "Foo Bar/Baz" (by decide) (by decide)
     (by decide) (by decide) (by decide) (by decide)⟩

/-- C4: an instance with the title `Foo Bar/é`. -/
theorem routeFromHash_documented_witness :
    "Foo Bar/é" ≠ ""
    ∧ routeFromHash ("#/edit/" ++ encodeURIComponent "Foo Bar/é")
        = some { name := .edit, arg := some "Foo Bar/é" } :=
  ⟨by decide, (routeFromHash_documented "Foo Bar/é" (by decide)).2.2.2.2.2.1⟩

/-! ## Article list of the home view -/

theorem insertSorted_perm {α : Type} (before : α → α → Bool) (a : α) (l : List α) :
    (insertSorted before a l).Perm (a :: l) := by
  induction l with
  | nil => exact List.Perm.refl _
  | cons b bs ih =>
    simp only [insertSorted]
    split_ifs
    · exact List.Perm.refl _
    · exact (List.Perm.cons b ih).trans (List.Perm.swap a b bs)

theorem jsSort_perm {α : Type} (cmp : α → α → Int) (l : List α) : (jsSort cmp l).Perm l := by
  induction l with
  | nil => exact List.Perm.refl _
  | cons a l ih =>
    exact (insertSorted_perm _ a _).trans (List.Perm.cons a ih)

theorem insertSorted_pairwise {α : Type} (before : α → α → Bool)
    (htotal : ∀ x y, before x y = true ∨ before y x = true)
    (htrans : ∀ x y z, before x y = true → before y z = true → before x z = true)
    (a : α) (l : List α) (h : l.Pairwise (fun x y => before x y = true)) :
    (insertSorted before a l).Pairwise (fun x y => before x y = true) := by
  induction l with
  | nil => simp [insertSorted]
  | cons b bs ih =>
    rw [List.pairwise_cons] at h
    simp only [insertSorted]
    split_ifs with hab
    · refine List.Pairwise.cons ?_ (List.Pairwise.cons h.1 h.2)
      intro y hy
      rcases List.mem_cons.1 hy with rfl | hy
      · exact hab
      · exact htrans _ _ _ hab (h.1 y hy)
    · refine List.Pairwise.cons ?_ (ih h.2)
      intro y hy
      rcases List.mem_cons.1 ((insertSorted_perm before a bs).mem_iff.1 hy) with rfl | hy
      · exact (htotal y b).resolve_left hab
      · exact h.1 y hy

theorem jsSort_pairwise {α : Type} (cmp : α → α → Int)
    (htotal : ∀ x y, cmp x y ≤ 0 ∨ cmp y x ≤ 0)
    (htrans : ∀ x y z, cmp x y ≤ 0 → cmp y z ≤ 0 → cmp x z ≤ 0) (l : List α) :
    (jsSort cmp l).Pairwise (fun x y => cmp x y ≤ 0) := by
  have key : (jsSort cmp l).Pairwise (fun x y => decide (cmp x y ≤ 0) = true) := by
    induction l with
    | nil => exact List.Pairwise.nil
    | cons a l ih =>
      apply insertSorted_pairwise _ _ _ a _ ih
      · intro x y
        simpa using htotal x y
      · intro x y z hxy hyz
        simpa using htrans x y z (by simpa using hxy) (by simpa using hyz)
  exact key.imp (fun h => by simpa using h)

theorem insertSorted_filter {α : Type} (before : α → α → Bool) (keep : α → Bool) (a : α)
    (l : List α) (h : ∀ b ∈ l, keep a = true → keep b = true → before a b = true) :
    (insertSorted before a l).filter keep = (a :: l).filter keep := by
  induction l with
  | nil => rfl
  | cons b bs ih =>
    have ih1 := ih (fun x hx => h x (List.mem_cons_of_mem b hx))
    simp only [insertSorted]
    split_ifs with hab
    · rfl
    · have hb := h b (List.mem_cons_self b bs)
      by_cases ka : keep a = true
      · have kb : keep b = false := by
          by_contra hk
          exact hab (hb ka (by simpa using hk))
        simp only [List.filter_cons, kb, Bool.false_eq_true, if_false, ka, if_true] at ih1 ⊢
        exact ih1
      · have ka1 : keep a = false := by simpa using ka
        simp only [List.filter_cons, ka1, Bool.false_eq_true, if_false] at ih1 ⊢
        rw [ih1]

theorem jsSort_filter {α : Type} (cmp : α → α → Int) (keep : α → Bool)
    (h : ∀ a b, keep a = true → keep b = true → cmp a b ≤ 0) (l : List α) :
    (jsSort cmp l).filter keep = l.filter keep := by
  induction l with
  | nil => rfl
  | cons a l ih =>
    show (insertSorted _ a (jsSort cmp l)).filter keep = _
    rw [insertSorted_filter _ keep a _ (fun b _ ka kb => by simpa using h a b ka kb)]
    simp only [List.filter_cons, ih]

theorem sortKey_of_isStr (v : Val) (h : v.isStr = true) : sortKey v = some ((sortKey v).getD "")
    ∧ v = .str ((sortKey v).getD "") := by
  cases v <;> simp [Val.isStr] at h
  exact ⟨rfl, rfl⟩

/-- The pure sort depends on the comparator only through its values on the
elements of the list. -/
theorem jsSort_congr {α : Type} (cmp1 cmp2 : α → α → Int) (l : List α)
    (h : ∀ a ∈ l, ∀ b ∈ l, cmp1 a b = cmp2 a b) : jsSort cmp1 l = jsSort cmp2 l := by
  induction l with
  | nil => rfl
  | cons a l ih =>
    have ih1 := ih (fun x hx y hy => h x (List.mem_cons_of_mem a hx) y (List.mem_cons_of_mem a hy))
    show insertSorted _ a (jsSort cmp1 l) = insertSorted _ a (jsSort cmp2 l)
    rw [ih1]
    have hins : ∀ s : List α, (∀ b ∈ s, b ∈ l) →
        insertSorted (fun a b => decide (cmp1 a b ≤ 0)) a s
          = insertSorted (fun a b => decide (cmp2 a b ≤ 0)) a s := by
      intro s
      induction s with
      | nil => intro _; rfl
      | cons b bs ihs =>
        intro hs
        have e := h a (List.mem_cons_self a l) b
          (List.mem_cons_of_mem a (hs b (List.mem_cons_self b bs)))
        simp only [insertSorted, e, ihs (fun x hx => hs x (List.mem_cons_of_mem b hx))]
    exact hins _ (fun b hb => (jsSort_perm cmp2 l).mem_iff.1 hb)

/-- The pure sort leaves a list of fewer than two elements as it is. -/
theorem jsSort_short {α : Type} (cmp : α → α → Int) (l : List α) (h : l.length < 2) :
    jsSort cmp l = l := by
  match l, h with
  | [], _ => rfl
  | [_], _ => rfl

/-- With a comparator that does not throw on the elements of the list, the sort
returns what the pure stable sort returns, on every host. -/
theorem jsSortM_eq (host : Host) (cmpM : Article → Article → Option Int)
    (cmp : Article → Article → Int) (l : List Article)
    (h : ∀ a ∈ l, ∀ b ∈ l, cmpM a b = some (cmp a b)) :
    jsSortM host cmpM l = some (jsSort cmp l) := by
  unfold jsSortM
  by_cases hl : l.length < 2
  · simp only [hl, if_true, jsSort_short cmp l hl]
  · have hall : l.all (fun a => l.all (fun b => (cmpM a b).isSome)) = true := by
      simp only [List.all_eq_true]
      intro a ha b hb
      rw [h a ha b hb]
      rfl
    simp only [hl, if_false, hall, if_true]
    congr 1
    apply jsSort_congr
    intro a ha b hb
    rw [h a ha b hb]
    rfl

/-- The comparator of `renderHome` does not throw on two articles whose
`updatedAt` are strings. -/
theorem byUpdatedDesc_of_isStr (host : Host) (a b : Article) (ha : a.updatedAt.isStr = true)
    (hb : b.updatedAt.isStr = true) :
    byUpdatedDesc host a b = some (byUpdatedDescStr host a b) := by
  have ea := (sortKey_of_isStr _ ha).2
  have eb := (sortKey_of_isStr _ hb).2
  unfold byUpdatedDesc byUpdatedDescStr
  rw [ea, eb]
  rfl

/-- C6. For every collection whose `updatedAt` values are strings and every
content `q` of the search box, with `localeCompare` the total preorder of the
host's collation: `renderHome` computes a list that holds exactly the articles
whose lower-cased title contains the trimmed, lower-cased `q` (all of them when
that is empty), each as often as the collection does; in it an article comes
before another only if its `updatedAt` is not earlier in the collation order;
and the articles of any one `updatedAt` value keep their collection order. -/
theorem homeList_sorted_filtered (host : Host) (articles : List Article) (q : String)
    (hstr : ∀ a ∈ articles, a.updatedAt.isStr = true)
    (htotal : ∀ x y, host.localeCompare x y ≤ 0 ∨ host.localeCompare y x ≤ 0)
    (htrans : ∀ x y z, host.localeCompare x y ≤ 0 → host.localeCompare y z ≤ 0 →
      host.localeCompare x z ≤ 0) :
    ∃ list, homeList host articles q = some list
      ∧ list.Perm (articles.filter (fun a =>
          !strTruthy (host.toLowerCase (jsTrim q))
            || includes (host.toLowerCase a.title) (host.toLowerCase (jsTrim q))))
      ∧ list.Pairwise (fun a b => ∃ ua ub, a.updatedAt = .str ua ∧ b.updatedAt = .str ub
          ∧ host.localeCompare ub ua ≤ 0)
      ∧ ∀ u, list.filter (fun a => strictEq a.updatedAt u)
          = (articles.filter (fun a =>
              !strTruthy (host.toLowerCase (jsTrim q))
                || includes (host.toLowerCase a.title) (host.toLowerCase (jsTrim q)))).filter
              (fun a => strictEq a.updatedAt u) := by
  have hsort : jsSortM host (byUpdatedDesc host) articles
      = some (jsSort (byUpdatedDescStr host) articles) :=
    jsSortM_eq host _ _ articles
      (fun a ha b hb => byUpdatedDesc_of_isStr host a b (hstr a ha) (hstr b hb))
  have hperm := jsSort_perm (byUpdatedDescStr host) articles
  refine ⟨(jsSort (byUpdatedDescStr host) articles).filter
    (matchesQuery host (host.toLowerCase (jsTrim q))), ?_, ?_, ?_, ?_⟩
  · simp only [homeList, hsort]
  · exact List.Perm.filter _ hperm
  · have hs := jsSort_pairwise (byUpdatedDescStr host)
      (fun x y => htotal _ _) (fun x y z h1 h2 => htrans _ _ _ h2 h1) articles
    have hs2 : (jsSort (byUpdatedDescStr host) articles).Pairwise
        (fun a b => ∃ ua ub, a.updatedAt = .str ua ∧ b.updatedAt = .str ub
          ∧ host.localeCompare ub ua ≤ 0) := by
      refine List.Pairwise.imp_of_mem ?_ hs
      intro a b ha hb hab
      have ha1 := sortKey_of_isStr _ (hstr a (hperm.mem_iff.1 ha))
      have hb1 := sortKey_of_isStr _ (hstr b (hperm.mem_iff.1 hb))
      exact ⟨_, _, ha1.2, hb1.2, hab⟩
    exact hs2.sublist (List.filter_sublist _)
  · intro u
    show List.filter _ (List.filter (matchesQuery host _) _) = List.filter _ (List.filter
      (matchesQuery host _) _)
    have hmem : ∀ l : List Article, (∀ a ∈ l, a ∈ articles) →
        (jsSort (byUpdatedDescStr host) l).filter (fun a => strictEq a.updatedAt u)
          = l.filter (fun a => strictEq a.updatedAt u) := by
      intro l
      induction l with
      | nil => intro _; rfl
      | cons a l ih =>
        intro hl
        show (insertSorted _ a (jsSort (byUpdatedDescStr host) l)).filter _ = _
        rw [insertSorted_filter _ _ a _ (fun b hb ka kb => by
          have hbm : b ∈ articles :=
            hl b (List.mem_cons_of_mem a ((jsSort_perm _ l).mem_iff.1 hb))
          have ea := (sortKey_of_isStr _ (hstr a (hl a (List.mem_cons_self a l)))).2
          have eb := (sortKey_of_isStr _ (hstr b hbm)).2
          rw [ea] at ka
          rw [eb] at kb
          have e1 := (strictEq_str_left _ _).1 ka
          have e2 := (strictEq_str_left _ _).1 kb
          have e3 : (sortKey a.updatedAt).getD "" = (sortKey b.updatedAt).getD "" :=
            Val.str.inj (e1.symm.trans e2)
          simp only [byUpdatedDescStr, decide_eq_true_eq]
          rw [e3]
          exact (htotal _ _).elim id id)]
        simp only [List.filter_cons, ih (fun x hx => hl x (List.mem_cons_of_mem a hx))]
    rw [List.filter_comm, hmem articles (fun a ha => ha), List.filter_comm]

/-! ## Instances -/

/-- C1: an instance, the sample collection exported and read back. -/
theorem export_import_roundtrip_witness :
    (∀ a ∈ sampleState.data.articles, a.wellStamped = true)
    ∧ (repairEntries sampleHost (initialState "#/") (sampleState.data.articles.map articleJson)
        = some (sampleState.data.articles, initialState "#/")
      ∧ (loadArticlesJSON sampleHost (initialState "#/")
          (some (downloadArticles sampleHost sampleState).1)).data.articles
        = sampleState.data.articles
      ∧ (importArticlesFromFile sampleHost (initialState "#/")
          (some (downloadArticles sampleHost sampleState).1)).data.articles
        = sampleState.data.articles) :=
  ⟨by decide, export_import_roundtrip sampleHost sampleState (initialState "#/") (by decide)⟩

/-- An instance of `sanitizeTree_safe`: the sample fragment, which has no
`template` element. -/
theorem sanitizeTree_safe_witness :
    distinctAttrNames sampleFragment = true
    ∧ allElementsList (isSafeElement sampleHost) (sanitizeTree sampleHost sampleFragment) = true :=
  ⟨by decide, sanitizeTree_safe sampleHost sampleFragment (by decide)⟩

/-- C2: instances. A blank title and a title already taken are rejected in the
sample state, saving the article being edited is accepted, and the scenario
runs from the empty collection with the titles `Alpha` and `Beta`. With two
articles whose ids are two arrays `[1]`, saving the second under the title of
the first is rejected. -/
theorem saveEditor_rejects_exactly_witness :
    (normalizeTitle "  " = ""
      ∧ saveEditor sampleHost sampleState "  " "x" = toast sampleState .emptyTitle)
    ∧ (normalizeTitle " Alpha " ≠ ""
      ∧ findArticleByTitle sampleState.data.articles (normalizeTitle " Alpha ")
          = some sampleArticle
      ∧ strictEq sampleArticle.id sampleState.editingArticleId = false
      ∧ saveEditor sampleHost sampleState " Alpha " "x" = toast sampleState .duplicateTitle)
    ∧ (normalizeTitle "Alpha" ≠ ""
      ∧ (saveEditor sampleHost { sampleState with editingArticleId := .str "a1" } "Alpha"
          "x").toasts = [.saved])
    ∧ ((initialState "#/").editingArticleId = .null
      ∧ normalizeTitle "Alpha" ≠ normalizeTitle "Beta"
      ∧ normalizeTitle " Alpha " = normalizeTitle "Alpha"
      ∧ saveEditor sampleHost
          (saveEditor sampleHost
            (saveEditor sampleHost { initialState "#/" with gateUnlocked := true } "Alpha" "x")
            "Beta" "y") " Alpha " "z"
        = toast
          (saveEditor sampleHost
            (saveEditor sampleHost { initialState "#/" with gateUnlocked := true } "Alpha" "x")
            "Beta" "y") .duplicateTitle
      ∧ (saveEditor sampleHost
          (openEditor
            (saveEditor sampleHost
              (saveEditor sampleHost { initialState "#/" with gateUnlocked := true } "Alpha" "x")
              "Beta" "y") (some (normalizeTitle "Alpha"))) " Alpha " "z").toasts
        = [.saved, .saved, .saved])
    ∧ (arrayIdState.data.articles = [arrayIdArticleA, arrayIdArticleB]
      ∧ arrayIdState.editingArticleId = arrayIdArticleB.id
      ∧ arrayIdArticleA.id.toJson = arrayIdArticleB.id.toJson
      ∧ normalizeTitle "A" ≠ ""
      ∧ findArticleByTitle arrayIdState.data.articles (normalizeTitle "A") = some arrayIdArticleA
      ∧ strictEq arrayIdArticleA.id arrayIdState.editingArticleId = false
      ∧ saveEditor sampleHost arrayIdState "A" "x" = toast arrayIdState .duplicateTitle) :=
  ⟨⟨by decide, (saveEditor_rejects_exactly sampleHost sampleState "  " "x" "" "" "" "").1
      (by decide)⟩,
   ⟨by decide, rfl, by decide,
    (saveEditor_rejects_exactly sampleHost sampleState " Alpha " "x" "" "" "" "").2.1
      sampleArticle (by decide) rfl (by decide)⟩,
   ⟨by decide,
    (saveEditor_rejects_exactly sampleHost { sampleState with editingArticleId := .str "a1" }
      "Alpha" "x" "" "" "" "").2.2.1 (by decide) (by
        intro e he
        have h1 : findArticleByTitle sampleState.data.articles (normalizeTitle "Alpha")
            = some sampleArticle := rfl
        have h2 : some sampleArticle = some e := h1.symm.trans he
        rw [← Option.some.inj h2]
        decide)⟩,
   ⟨rfl, by decide, by decide,
    ((saveEditor_rejects_exactly sampleHost { initialState "#/" with gateUnlocked := true }
      "Alpha" "x" "Beta" "y" " Alpha " "z").2.2.2 rfl rfl (by decide) (by decide) (by decide)
      rfl rfl (by decide)).2.2.2.1,
    ((saveEditor_rejects_exactly sampleHost { initialState "#/" with gateUnlocked := true }
      "Alpha" "x" "Beta" "y" " Alpha " "z").2.2.2 rfl rfl (by decide) (by decide) (by decide)
      rfl rfl (by decide)).2.2.2.2⟩,
   ⟨rfl, rfl, rfl, by decide, rfl, by decide,
    (saveEditor_rejects_exactly sampleHost arrayIdState "A" "x" "" "" "" "").2.1
      arrayIdArticleA (by decide) rfl (by decide)⟩⟩

/-- C6: an instance, the sample collection searched for `a` on a host that
compares strings by code points. -/
theorem homeList_sorted_filtered_witness :
    (∀ a ∈ sampleState.data.articles, a.updatedAt.isStr = true)
    ∧ ∃ list, homeList sampleHost sampleState.data.articles " A " = some list
      ∧ list.Perm (sampleState.data.articles.filter (fun a =>
          !strTruthy (sampleHost.toLowerCase (jsTrim " A "))
            || includes (sampleHost.toLowerCase a.title) (sampleHost.toLowerCase (jsTrim " A "))))
      ∧ list.Pairwise (fun a b => ∃ ua ub, a.updatedAt = .str ua ∧ b.updatedAt = .str ub
          ∧ sampleHost.localeCompare ub ua ≤ 0)
      ∧ ∀ u, list.filter (fun a => strictEq a.updatedAt u)
          = (sampleState.data.articles.filter (fun a =>
              !strTruthy (sampleHost.toLowerCase (jsTrim " A "))
                || includes (sampleHost.toLowerCase a.title)
                    (sampleHost.toLowerCase (jsTrim " A ")))).filter
              (fun a => strictEq a.updatedAt u) :=
  ⟨by decide,
   homeList_sorted_filtered sampleHost sampleState.data.articles " A " (by decide)
    (by
      intro x y
      show (if x.data < y.data then (-1 : Int) else if x = y then 0 else 1) ≤ 0
        ∨ (if y.data < x.data then (-1 : Int) else if y = x then 0 else 1) ≤ 0
      have exy : x.data < y.data ↔ x < y := String.lt_iff_toList_lt.symm
      have eyx : y.data < x.data ↔ y < x := String.lt_iff_toList_lt.symm
      simp only [exy, eyx]
      rcases lt_trichotomy x y with h | h | h
      · left; simp [h]
      · left; simp [h]
      · right; simp [h])
    (by
      intro x y z hxy hyz
      have key : ∀ a b : String,
          (if a.data < b.data then (-1 : Int) else if a = b then 0 else 1) ≤ 0 ↔ a ≤ b := by
        intro a b
        have eab : a.data < b.data ↔ a < b := String.lt_iff_toList_lt.symm
        simp only [eab]
        rcases lt_trichotomy a b with h | h | h
        · simp [h, le_of_lt h]
        · simp [h]
        · have h1 : ¬ a < b := not_lt_of_gt h
          have h2 : ¬ a = b := ne_of_gt h
          have h3 : ¬ a ≤ b := not_le_of_gt h
          simp [h1, h2, h3]
      show (if x.data < z.data then (-1 : Int) else if x = z then 0 else 1) ≤ 0
      rw [key]
      exact le_trans ((key x y).1 hxy) ((key y z).1 hyz))⟩

/-! ## Import -/

/-- A document that is not an object, or whose `articles` member is not an
array, is rejected: the failure message is shown and nothing else changes. -/
theorem importArticlesFromFile_bad_shape (host : Host) (st : State) (json : JVal)
    (h : (∀ members, json ≠ .obj members) ∨ (∀ items, json.get "articles" ≠ some (.arr items))) :
    toast st .importFailed = importArticlesFromFile host st (some json) := by
  symm
  have hget : ∀ items, json.get "articles" ≠ some (.arr items) := by
    rcases h with h | h
    · intro items
      cases json <;> simp [JVal.get]
      exact absurd rfl (h _)
    · exact h
  unfold importArticlesFromFile
  simp only
  split_ifs
  · rfl
  · cases hg : json.get "articles" with
    | none => rfl
    | some v =>
      cases v with
      | arr items => exact absurd hg (hget items)
      | _ => rfl

/-- C7, the code at the failing input. On a page whose fragment is `#/%`,
importing a well-formed snapshot replaces the collection, shows the success
message, and then, because `renderRoute` throws inside the `try` block, shows
the failure message as well; the same happens at the home view for a snapshot
whose entry carries a numeric id. The message of a failed import is shown
although `STATE.data` is no longer what it was. -/
theorem importArticlesFromFile_failure_after_replace :
    (importArticlesFromFile sampleHost (initialState "#/%") (some sampleSnapshot)).toasts
        = [.imported, .importFailed]
    ∧ (importArticlesFromFile sampleHost (initialState "#/%")
        (some sampleSnapshot)).data.articles.length = 1
    ∧ (initialState "#/%").data.articles.length = 0
    ∧ (importArticlesFromFile sampleHost (initialState "#/") (some numericIdSnapshot)).toasts
        = [.imported, .importFailed]
    ∧ (importArticlesFromFile sampleHost (initialState "#/")
        (some numericIdSnapshot)).data.articles.length = 1 := by
  decide

/-! ## Repair of snapshot entries -/

/-- C8, counterexample. An entry whose id is the number 7 keeps that id, which
is not a string; an entry whose id is the empty string, which is a string,
gets a generated id; and the entry `null` is not turned into an article at
all. -/
theorem repairEntry_id_by_truthiness :
    ((repairEntry sampleHost (initialState "#/") (.obj [("id", .num 7)])).map
        (fun r => strictEq r.1.id (.num 7) && !r.1.id.isStr)) = some true
    ∧ ((repairEntry sampleHost (initialState "#/") (.obj [("id", .str "")])).map
        (fun r => strictEq r.1.id (.str (sampleHost.uuid 0)))) = some true
    ∧ (repairEntry sampleHost (initialState "#/") .null).isNone = true := by
  decide

/-- A string is held by value. -/
theorem store_str (st : State) (s : String) : store st (.str s) = (.str s, st) := rfl

/-- A stored value prints as the member it was read from. -/
theorem store_toJson (st : State) (v : JVal) : (store st v).1.toJson = v := by
  cases v <;> rfl

/-- A stored value is truthy exactly when the member is. -/
theorem store_truthy (st : State) (v : JVal) : (store st v).1.truthy = v.truthy := by
  cases v <;> rfl

/-- Storing a value consumes no reading of the clock. -/
theorem store_ticks (st : State) (v : JVal) : (store st v).2.ticks = st.ticks := by
  cases v <;> rfl

/-- Storing a value consumes no generated identifier. -/
theorem store_uuids (st : State) (v : JVal) : (store st v).2.uuids = st.uuids := by
  cases v <;> rfl

/-- What the repair does with an entry other than `null`, for values of any
type: `id`, `createdAt` and `updatedAt` are tested by truthiness, `title` and
`html` by type. A truthy value is held as `store` holds it: a primitive by
value, an array or object as an object of its own. -/
theorem repairEntry_by_cases (host : Host) (st : State) (a : JVal) (ha : a ≠ .null) :
    ∃ art st1, repairEntry host st a = some (art, st1)
      ∧ (∀ v, a.get "id" = some v → v.truthy = true → art.id = (store st v).1)
      ∧ (optTruthy (a.get "id") = false → art.id = .str (host.uuid st.uuids))
      ∧ (∀ s, a.get "title" = some (.str s) → art.title = s)
      ∧ ((∀ s, a.get "title" ≠ some (.str s)) → art.title = placeholderTitle)
      ∧ (∀ s, a.get "html" = some (.str s) → art.html = s)
      ∧ ((∀ s, a.get "html" ≠ some (.str s)) → art.html = "")
      ∧ (∀ v, a.get "createdAt" = some v → v.truthy = true →
          ∃ st2, art.createdAt = (store st2 v).1)
      ∧ (optTruthy (a.get "createdAt") = false → art.createdAt = .str (host.clock st.ticks))
      ∧ (∀ v, a.get "updatedAt" = some v → v.truthy = true →
          ∃ st2, art.updatedAt = (store st2 v).1)
      ∧ (optTruthy (a.get "updatedAt") = false → optTruthy (a.get "createdAt") = true →
          art.updatedAt = art.createdAt)
      ∧ (optTruthy (a.get "updatedAt") = false → optTruthy (a.get "createdAt") = false →
          art.updatedAt = .str (host.clock (st.ticks + 1))) := by
  have hdef : ∃ art st1, repairEntry host st a = some (art, st1)
      ∧ art.id = (if optTruthy (a.get "id") then (store st ((a.get "id").getD .null)).1
                  else .str (host.uuid st.uuids))
      ∧ art.title = (match a.get "title" with
           | some (.str s) => s
           | _ => placeholderTitle)
      ∧ art.html = (match a.get "html" with
           | some (.str s) => s
           | _ => "")
      ∧ (∃ st2, art.createdAt = (if optTruthy (a.get "createdAt")
            then (store st2 ((a.get "createdAt").getD .null)).1
            else .str (host.clock st.ticks)))
      ∧ (∃ st2, art.updatedAt = (if optTruthy (a.get "updatedAt")
            then (store st2 ((a.get "updatedAt").getD .null)).1
            else if optTruthy (a.get "createdAt") then art.createdAt
            else .str (host.clock (st.ticks + 1)))) := by
    obtain ⟨g, hg⟩ : ∃ g : String → Option JVal, ∀ k, a.get k = g k := ⟨a.get, fun _ => rfl⟩
    cases a
    case null => exact absurd rfl ha
    all_goals
      unfold repairEntry
      simp only [randomUUID, nowISO, hg]
      refine ⟨_, _, rfl, ?_, rfl, rfl, ?_, ?_⟩
      · split_ifs <;> rfl
      · by_cases hcr : optTruthy (g "createdAt") = true
        · simp only [hcr, if_true]
          exact ⟨_, rfl⟩
        · refine ⟨st, ?_⟩
          simp only [hcr, Bool.false_eq_true, if_false]
          split_ifs <;> simp only [store_ticks]
      · by_cases hup : optTruthy (g "updatedAt") = true
        · simp only [hup, if_true]
          exact ⟨_, rfl⟩
        · refine ⟨st, ?_⟩
          simp only [hup, Bool.false_eq_true, if_false]
          split_ifs <;> simp only [store_ticks]
  obtain ⟨art, st1, hr, hid, htitle, hhtml, ⟨sc, hc⟩, ⟨su, hu⟩⟩ := hdef
  refine ⟨art, st1, hr, ?_, ?_, ?_, ?_, ?_, ?_, ?_, ?_, ?_, ?_, ?_⟩
  · intro v hv ht
    rw [hid]
    simp [hv, optTruthy, ht]
  · intro h
    rw [hid]
    simp [h]
  · intro s hs
    rw [htitle]
    simp [hs]
  · intro h
    rw [htitle]
    cases hg : a.get "title" with
    | none => rfl
    | some v =>
      cases v with
      | str s => exact absurd hg (h s)
      | _ => rfl
  · intro s hs
    rw [hhtml]
    simp [hs]
  · intro h
    rw [hhtml]
    cases hg : a.get "html" with
    | none => rfl
    | some v =>
      cases v with
      | str s => exact absurd hg (h s)
      | _ => rfl
  · intro v hv ht
    refine ⟨sc, ?_⟩
    rw [hc]
    simp [hv, optTruthy, ht]
  · intro h
    rw [hc]
    simp [h]
  · intro v hv ht
    refine ⟨su, ?_⟩
    rw [hu]
    simp [hv, optTruthy, ht]
  · intro h1 h2
    rw [hu]
    simp [h1, h2]
  · intro h1 h2
    rw [hu]
    simp [h1, h2]

/-- C8, amended. The repair turns every entry other than `null` into an
article. The id is kept when it is a non-empty string and is a newly generated
id when it is missing or falsy; the title is kept when it is a string and is
otherwise the placeholder; the content is kept when it is a string and is
otherwise empty; `createdAt` is kept when it is a non-empty string and is the
current time when it is missing or falsy; `updatedAt` is kept when it is a
non-empty string, and when it is missing or falsy it is the entry's own
`createdAt` if that is a non-empty string, and the clock reading that follows
the one taken for `createdAt` if that is missing or falsy too. -/
theorem repairEntry_fields (host : Host) (st : State) (a : JVal) (ha : a ≠ .null) :
    ∃ art st1, repairEntry host st a = some (art, st1)
      ∧ (∀ s, a.get "id" = some (.str s) → s ≠ "" → art.id = .str s)
      ∧ (optTruthy (a.get "id") = false → art.id = .str (host.uuid st.uuids))
      ∧ (∀ s, a.get "title" = some (.str s) → art.title = s)
      ∧ ((∀ s, a.get "title" ≠ some (.str s)) → art.title = placeholderTitle)
      ∧ (∀ s, a.get "html" = some (.str s) → art.html = s)
      ∧ ((∀ s, a.get "html" ≠ some (.str s)) → art.html = "")
      ∧ (∀ s, a.get "createdAt" = some (.str s) → s ≠ "" → art.createdAt = .str s)
      ∧ (optTruthy (a.get "createdAt") = false → art.createdAt = .str (host.clock st.ticks))
      ∧ (∀ s, a.get "updatedAt" = some (.str s) → s ≠ "" → art.updatedAt = .str s)
      ∧ (optTruthy (a.get "updatedAt") = false →
          ∀ s, a.get "createdAt" = some (.str s) → s ≠ "" → art.updatedAt = .str s)
      ∧ (optTruthy (a.get "updatedAt") = false → optTruthy (a.get "createdAt") = false →
          art.updatedAt = .str (host.clock (st.ticks + 1))) := by
  obtain ⟨art, st1, h, h1, h2, h3, h4, h5, h6, h7, h8, h9, h10, h11⟩ :=
    repairEntry_by_cases host st a ha
  have hstr : ∀ s : String, s ≠ "" → (JVal.str s).truthy = true :=
    fun s hs => (strTruthy_iff s).2 hs
  have h7s : ∀ s, a.get "createdAt" = some (.str s) → s ≠ "" → art.createdAt = .str s := by
    intro s hs hne
    obtain ⟨st2, e⟩ := h7 _ hs (hstr s hne)
    exact e
  refine ⟨art, st1, h, fun s hs hne => h1 _ hs (hstr s hne), h2, h3, h4, h5, h6,
    h7s, h8, ?_, ?_, h11⟩
  · intro s hs hne
    obtain ⟨st2, e⟩ := h9 _ hs (hstr s hne)
    exact e
  · intro hu s hs hne
    have hc : optTruthy (a.get "createdAt") = true := by
      rw [hs]
      exact hstr s hne
    rw [h10 hu hc]
    exact h7s s hs hne

/-- C8, amended: an instance, an entry that has only an id and a title. -/
theorem repairEntry_fields_witness :
    (JVal.obj [("id", .str "k"), ("title", .str "T")] ≠ .null)
    ∧ ∃ art st1,
      repairEntry sampleHost (initialState "#/") (.obj [("id", .str "k"), ("title", .str "T")])
        = some (art, st1)
      ∧ art.id = .str "k" ∧ art.title = "T" ∧ art.html = ""
      ∧ art.createdAt = .str (sampleHost.clock 0) ∧ art.updatedAt = .str (sampleHost.clock 1) := by
  refine ⟨by simp, ?_⟩
  obtain ⟨art, st1, h, h1, _, h3, _, _, h6, _, h8, _, _, h11⟩ :=
    repairEntry_fields sampleHost (initialState "#/") (.obj [("id", .str "k"), ("title", .str "T")])
      (by simp)
  exact ⟨art, st1, h, h1 "k" rfl (by decide), h3 "T" rfl, h6 (by intro s h; cases h),
    h8 rfl, h11 rfl rfl⟩

/-! ## Effect of a save on the collection -/

theorem saveEditor_saved_inv (host : Host) (st : State) (u d : String)
    (hs : (saveEditor host st u d).toasts = st.toasts ++ [.saved]) :
    normalizeTitle u ≠ ""
      ∧ ∀ e, findArticleByTitle st.data.articles (normalizeTitle u) = some e →
          strictEq e.id st.editingArticleId = true := by
  constructor
  · intro h0
    rw [saveEditor_emptyTitle host st u d h0] at hs
    simp [toast] at hs
  · intro e he
    by_contra hid
    have hn : normalizeTitle u ≠ "" := by
      intro h0
      rw [saveEditor_emptyTitle host st u d h0] at hs
      simp [toast] at hs
    rw [saveEditor_duplicate host st u d e hn he (by simpa using hid)] at hs
    simp [toast] at hs

theorem findArticleIndexById_some (articles : List Article) (target : Val)
    (h : ∃ a ∈ articles, strictEq a.id target = true) :
    ∃ idx old, findArticleIndexById articles target = some idx
      ∧ articles[idx]? = some old ∧ strictEq old.id target = true
      ∧ ∀ j b, j < idx → articles[j]? = some b → strictEq b.id target = false := by
  obtain ⟨a, ha, hp⟩ := h
  have h1 := List.findIdx?_eq_some_of_exists (p := fun a => strictEq a.id target) ⟨a, ha, hp⟩
  obtain ⟨hlt, hp1, hfirst⟩ := List.findIdx?_eq_some_iff_getElem.1 h1
  refine ⟨_, articles[articles.findIdx (fun a => strictEq a.id target)], h1,
    List.getElem?_eq_getElem hlt, hp1, ?_⟩
  intro j b hj hb
  have hjl : j < articles.length := Nat.lt_trans hj hlt
  rw [List.getElem?_eq_getElem hjl] at hb
  have := hfirst j hj
  rw [Option.some.inj hb] at this
  simpa using this

/-- C9. A successful `saveEditor` in edit mode (`STATE.editingArticleId` is
truthy and is the id of an article of the collection, by the operator `===`,
which takes two arrays or objects for equal only when they are the same
object) replaces the first
article with that id by one that has the same id and `createdAt`, the
normalized title, the sanitized content and the current time as `updatedAt`:
the length of the collection and every other position are unchanged. A
successful `saveEditor` in create mode (`editingArticleId` is `null`) appends
exactly one article and leaves the existing ones as they are. -/
theorem saveEditor_frame (host : Host) (st : State) (u d : String)
    (hs : (saveEditor host st u d).toasts = st.toasts ++ [.saved]) :
    (st.editingArticleId.truthy = true →
      (∃ a ∈ st.data.articles, strictEq a.id st.editingArticleId = true) →
      ∃ (idx : Nat) (old new : Article),
        st.data.articles[idx]? = some old
        ∧ strictEq old.id st.editingArticleId = true
        ∧ (∀ j b, j < idx → st.data.articles[j]? = some b →
            strictEq b.id st.editingArticleId = false)
        ∧ new.id = old.id ∧ new.createdAt = old.createdAt
        ∧ new.title = normalizeTitle u ∧ new.html = sanitizeHTML host d
        ∧ new.updatedAt = .str (host.clock st.ticks)
        ∧ (saveEditor host st u d).data.articles[idx]? = some new
        ∧ (∀ j, j ≠ idx →
            (saveEditor host st u d).data.articles[j]? = st.data.articles[j]?)
        ∧ (saveEditor host st u d).data.articles.length = st.data.articles.length)
    ∧ (st.editingArticleId = .null →
      ∃ new : Article,
        (saveEditor host st u d).data.articles = st.data.articles ++ [new]
        ∧ new.id = .str (host.uuid st.uuids)
        ∧ new.title = normalizeTitle u ∧ new.html = sanitizeHTML host d
        ∧ new.createdAt = .str (host.clock st.ticks)
        ∧ new.updatedAt = .str (host.clock (st.ticks + 1))) := by
  obtain ⟨hn, hclash⟩ := saveEditor_saved_inv host st u d hs
  constructor
  · intro he hmem
    obtain ⟨idx, old, hidx, hold, hp, hfirst⟩ :=
      findArticleIndexById_some st.data.articles st.editingArticleId hmem
    have hlt : idx < st.data.articles.length := by
      by_contra hge
      rw [List.getElem?_eq_none (by omega)] at hold
      cases hold
    have heq := saveEditor_edit host st u d idx old he hn hclash hidx hold
    refine ⟨idx, old,
      { id := old.id, title := normalizeTitle u, html := sanitizeHTML host d,
        createdAt := old.createdAt, updatedAt := .str (host.clock st.ticks) },
      hold, hp, hfirst, rfl, rfl, rfl, rfl, rfl, ?_, ?_, ?_⟩
    · rw [heq]
      simp [hlt]
    · intro j hj
      rw [heq]
      simp only
      exact List.getElem?_set_ne (Ne.symm hj)
    · rw [heq]
      simp
  · intro h0
    have heq := saveEditor_create host st u d (by rw [h0]; rfl) hn hclash
    exact ⟨_, by rw [heq], rfl, rfl, rfl, rfl, rfl⟩

/-- C9: instances. Saving the first sample article under a new title keeps its
id, its `createdAt` and the length of the collection; saving in create mode
from the empty collection appends one article. With two articles whose ids are
two arrays `[1]` and the editor opened on the second, the second article is the
one written and the first stays as it is. -/
theorem saveEditor_frame_witness :
    ((saveEditor sampleHost { sampleState with editingArticleId := .str "a1" } "Alpha two"
        "x").toasts = sampleState.toasts ++ [.saved]
      ∧ (Val.str "a1").truthy = true
      ∧ (∃ a ∈ sampleState.data.articles, strictEq a.id (.str "a1") = true)
      ∧ (saveEditor sampleHost (initialState "#/") "Gamma" "x").toasts
          = (initialState "#/").toasts ++ [.saved]
      ∧ (initialState "#/").editingArticleId = .null)
    ∧ (∃ (idx : Nat) (old new : Article),
        sampleState.data.articles[idx]? = some old
        ∧ new.id = old.id ∧ new.createdAt = old.createdAt
        ∧ (saveEditor sampleHost { sampleState with editingArticleId := .str "a1" } "Alpha two"
            "x").data.articles[idx]? = some new
        ∧ (saveEditor sampleHost { sampleState with editingArticleId := .str "a1" } "Alpha two"
            "x").data.articles.length = sampleState.data.articles.length)
    ∧ (∃ new : Article,
        (saveEditor sampleHost (initialState "#/") "Gamma" "x").data.articles
          = (initialState "#/").data.articles ++ [new]
        ∧ new.title = normalizeTitle "Gamma")
    ∧ (arrayIdState.data.articles = [arrayIdArticleA, arrayIdArticleB]
      ∧ arrayIdState.editingArticleId = arrayIdArticleB.id
      ∧ ∃ new : Article,
          (saveEditor sampleHost arrayIdState "C" "x").data.articles[1]? = some new
          ∧ new.id = arrayIdArticleB.id ∧ new.title = normalizeTitle "C"
          ∧ (saveEditor sampleHost arrayIdState "C" "x").data.articles[0]?
              = some arrayIdArticleA) := by
  refine ⟨⟨by decide, by decide, ⟨sampleArticle, by simp [sampleState], by decide⟩, by decide,
    rfl⟩, ?_, ?_, ?_⟩
  · obtain ⟨idx, old, new, h1, _, _, h4, h5, _, _, _, h9, _, h11⟩ :=
      (saveEditor_frame sampleHost { sampleState with editingArticleId := .str "a1" }
        "Alpha two" "x" (by decide)).1 (by decide)
        ⟨sampleArticle, by simp [sampleState], by decide⟩
    exact ⟨idx, old, new, h1, h4, h5, h9, h11⟩
  · obtain ⟨new, h1, _, h3, _⟩ :=
      (saveEditor_frame sampleHost (initialState "#/") "Gamma" "x" (by decide)).2 rfl
    exact ⟨new, h1, h3⟩
  · refine ⟨rfl, rfl, ?_⟩
    obtain ⟨idx, old, new, h1, h2, _, h4, _, h6, _, _, h9, h10, _⟩ :=
      (saveEditor_frame sampleHost arrayIdState "C" "x" (by decide)).1 (by decide)
        ⟨arrayIdArticleB,
          (show arrayIdArticleB ∈ [arrayIdArticleA, arrayIdArticleB] from
            List.mem_cons_of_mem _ (List.mem_singleton.2 rfl)),
          by decide⟩
    have harts : arrayIdState.data.articles = [arrayIdArticleA, arrayIdArticleB] := rfl
    have hed : arrayIdState.editingArticleId = arrayIdArticleB.id := rfl
    rw [harts] at h1
    rw [hed] at h2
    match idx, h1, h9, h10 with
    | 0, h1, _, _ =>
      have e : arrayIdArticleA = old := by simpa using h1
      rw [← e] at h2
      exact absurd h2 (by decide)
    | 1, h1, h9, h10 =>
      have e : arrayIdArticleB = old := by simpa using h1
      refine ⟨new, h9, by rw [h4, ← e], h6, ?_⟩
      rw [h10 0 (by decide), harts]
      rfl
    | k + 2, h1, _, _ => simp at h1

/-! ## Order of the time stamps -/

/-- What a call of `saveEditor` does to the collection and to the clock: nothing,
or one article gets the current reading as `updatedAt`, or an article stamped
with the next two readings is appended. -/
theorem saveEditor_cases (host : Host) (st : State) (u d : String) :
    ((saveEditor host st u d).data.articles = st.data.articles
        ∧ (saveEditor host st u d).ticks = st.ticks)
    ∨ (∃ (idx : Nat) (old : Article), st.data.articles[idx]? = some old
        ∧ (saveEditor host st u d).data.articles = st.data.articles.set idx
            { old with title := normalizeTitle u, html := sanitizeHTML host d,
                       updatedAt := .str (host.clock st.ticks) }
        ∧ (saveEditor host st u d).ticks = st.ticks + 1)
    ∨ ((saveEditor host st u d).data.articles = st.data.articles ++
          [{ id := .str (host.uuid st.uuids), title := normalizeTitle u,
             html := sanitizeHTML host d, createdAt := .str (host.clock st.ticks),
             updatedAt := .str (host.clock (st.ticks + 1)) }]
        ∧ (saveEditor host st u d).ticks = st.ticks + 2) := by
  by_cases hn : normalizeTitle u = ""
  · left
    rw [saveEditor_emptyTitle host st u d hn]
    exact ⟨rfl, rfl⟩
  · by_cases hc : ∀ e, findArticleByTitle st.data.articles (normalizeTitle u) = some e →
        strictEq e.id st.editingArticleId = true
    · by_cases he : st.editingArticleId.truthy = true
      · cases hidx : findArticleIndexById st.data.articles st.editingArticleId with
        | none =>
          left
          have ht1 : strTruthy (normalizeTitle u) = true := (strTruthy_iff _).2 hn
          cases hfe : findArticleByTitle st.data.articles (normalizeTitle u) with
          | none => simp [saveEditor, ht1, hfe, he, hidx, toast]
          | some e =>
            have := hc e hfe
            simp [saveEditor, ht1, hfe, he, hidx, toast, this]
        | some idx =>
          cases hold : st.data.articles[idx]? with
          | none =>
            left
            have ht1 : strTruthy (normalizeTitle u) = true := (strTruthy_iff _).2 hn
            cases hfe : findArticleByTitle st.data.articles (normalizeTitle u) with
            | none => simp [saveEditor, ht1, hfe, he, hidx, hold, toast]
            | some e =>
              have := hc e hfe
              simp [saveEditor, ht1, hfe, he, hidx, hold, toast, this]
          | some old =>
            right
            left
            refine ⟨idx, old, hold, ?_, ?_⟩ <;>
              rw [saveEditor_edit host st u d idx old he hn hc hidx hold]
      · right
        right
        rw [saveEditor_create host st u d (by simpa using he) hn hc]
        exact ⟨rfl, rfl⟩
    · left
      push_neg at hc
      obtain ⟨e, he, hid⟩ := hc
      rw [saveEditor_duplicate host st u d e hn he (by simpa using hid)]
      exact ⟨rfl, rfl⟩

theorem stampsOrdered_mono (host : Host)
    (hmono : ∀ i j, i ≤ j → host.clock i ≤ host.clock j) (i j : Nat) (hij : i ≤ j)
    (a : Article) (h : stampsOrdered (host.clock i) a) : stampsOrdered (host.clock j) a := by
  obtain ⟨c, u, hc, hu, hcu, hci⟩ := h
  exact ⟨c, u, hc, hu, hcu, le_trans hci (hmono i j hij)⟩

theorem saveEditor_stampsOrdered (host : Host)
    (hmono : ∀ i j, i ≤ j → host.clock i ≤ host.clock j) (st : State) (u d : String)
    (h : ∀ a ∈ st.data.articles, stampsOrdered (host.clock st.ticks) a) :
    ∀ a ∈ (saveEditor host st u d).data.articles,
      stampsOrdered (host.clock (saveEditor host st u d).ticks) a := by
  rcases saveEditor_cases host st u d with ⟨h1, h2⟩ | ⟨idx, old, hold, h1, h2⟩ | ⟨h1, h2⟩
  · rw [h1, h2]
    exact h
  · rw [h1, h2]
    intro a ha
    rcases List.mem_or_eq_of_mem_set ha with ha | rfl
    · exact stampsOrdered_mono host hmono _ _ (Nat.le_succ _) a (h a ha)
    · have hmem : old ∈ st.data.articles := List.getElem?_mem hold
      obtain ⟨c, _, hc, _, _, hci⟩ := h old hmem
      exact ⟨c, host.clock st.ticks, hc, rfl, hci,
        le_trans hci (hmono _ _ (Nat.le_succ _))⟩
  · rw [h1, h2]
    intro a ha
    rcases List.mem_append.1 ha with ha | ha
    · exact stampsOrdered_mono host hmono _ _ (by omega) a (h a ha)
    · rw [List.mem_singleton.1 ha]
      exact ⟨host.clock st.ticks, host.clock (st.ticks + 1), rfl, rfl,
        hmono _ _ (Nat.le_succ _), hmono _ _ (by omega)⟩

theorem runSaves_stampsOrdered (host : Host)
    (hmono : ∀ i j, i ≤ j → host.clock i ≤ host.clock j)
    (steps : List (Val × String × String)) (st : State)
    (h : ∀ a ∈ st.data.articles, stampsOrdered (host.clock st.ticks) a) :
    ∀ a ∈ (runSaves host st steps).data.articles,
      stampsOrdered (host.clock (runSaves host st steps).ticks) a := by
  induction steps generalizing st with
  | nil => exact h
  | cons s rest ih =>
    obtain ⟨target, title, draft⟩ := s
    exact ih _ (saveEditor_stampsOrdered host hmono { st with editingArticleId := target }
      title draft h)

/-- C10, counterexample. Importing a snapshot whose entry has an `updatedAt`
earlier than its `createdAt` yields, before any save, a collection whose
article has `updatedAt` below `createdAt` in string order. -/
theorem import_keeps_backdated_stamps :
    ((importArticlesFromFile sampleHost (initialState "#/")
        (some backdatedSnapshot)).data.articles.map
          (fun a => strictEq a.createdAt (.str "2024-01-02T00:00:00.000Z")
            && strictEq a.updatedAt (.str "2024-01-01T00:00:00.000Z"))) = [true]
    ∧ "2024-01-01T00:00:00.000Z" < "2024-01-02T00:00:00.000Z" :=
  ⟨by decide, String.lt_iff_toList_lt.2 (by decide)⟩

/-- C10, amended. With a clock whose readings never decrease in string order,
start from any collection in which every article has string time stamps with
`createdAt` not later than `updatedAt` and not later than the current clock
reading (the empty collection of a failed load is one, and so is every loaded
or imported snapshot whose repaired articles are of that kind). After any
sequence of saves, on whatever targets and with whatever drafts, every article
has string time stamps with `updatedAt ≥ createdAt` in string order. -/
theorem saves_keep_stamp_order (host : Host)
    (hmono : ∀ i j, i ≤ j → host.clock i ≤ host.clock j) (st : State)
    (h : ∀ a ∈ st.data.articles, stampsOrdered (host.clock st.ticks) a)
    (steps : List (Val × String × String)) :
    ∀ a ∈ (runSaves host st steps).data.articles,
      ∃ c u, a.createdAt = .str c ∧ a.updatedAt = .str u ∧ c ≤ u := by
  intro a ha
  obtain ⟨c, u, hc, hu, hcu, _⟩ := runSaves_stampsOrdered host hmono steps st h a ha
  exact ⟨c, u, hc, hu, hcu⟩

theorem sampleHost_clock_mono (i j : Nat) (hij : i ≤ j) :
    sampleHost.clock i ≤ sampleHost.clock j := by
  show (if i < 3 then "2024-05-01T10:00:00.000Z" else "2024-05-01T10:00:00.001Z")
    ≤ (if j < 3 then "2024-05-01T10:00:00.000Z" else "2024-05-01T10:00:00.001Z")
  by_cases hi : i < 3
  · by_cases hj : j < 3
    · simp [hi, hj]
    · simp only [hi, hj, if_true, if_false]
      exact le_of_lt (String.lt_iff_toList_lt.2 (by decide))
  · have hj : ¬ j < 3 := by omega
    simp [hi, hj]

/-- C10, amended: an instance. From the empty collection, a creation followed by
an edit of the created article. -/
theorem saves_keep_stamp_order_witness :
    (∀ i j, i ≤ j → sampleHost.clock i ≤ sampleHost.clock j)
    ∧ (∀ a ∈ (initialState "#/").data.articles,
        stampsOrdered (sampleHost.clock (initialState "#/").ticks) a)
    ∧ ∀ a ∈ (runSaves sampleHost (initialState "#/")
          [(.null, "Alpha", "x"), (.str "a", "Alpha two", "y")]).data.articles,
        ∃ c u, a.createdAt = .str c ∧ a.updatedAt = .str u ∧ c ≤ u :=
  ⟨sampleHost_clock_mono, (fun a ha => by cases ha),
   saves_keep_stamp_order sampleHost sampleHost_clock_mono (initialState "#/")
     (fun a ha => by cases ha) [(.null, "Alpha", "x"), (.str "a", "Alpha two", "y")]⟩

/-! ## Identifiers are truthy -/

/-- With identifiers that are never empty, every repaired entry has a truthy
id. -/
theorem repairEntry_id_truthy (host : Host) (hu : ∀ k, host.uuid k ≠ "") (st st1 : State)
    (a : JVal) (art : Article) (h : repairEntry host st a = some (art, st1)) :
    art.id.truthy = true := by
  have ha : a ≠ .null := by
    rintro rfl
    simp [repairEntry] at h
  obtain ⟨art1, st2, hr, h1, h2, _⟩ := repairEntry_by_cases host st a ha
  have e : art1 = art := by
    have := hr.symm.trans h
    exact congrArg Prod.fst (Option.some.inj this)
  subst e
  cases hg : a.get "id" with
  | none => rw [h2 (by rw [hg]; rfl)]; exact (strTruthy_iff _).2 (hu _)
  | some v =>
    by_cases hv : v.truthy = true
    · rw [h1 v hg hv, store_truthy]
      exact hv
    · rw [h2 (by rw [hg]; simpa [optTruthy] using hv)]
      exact (strTruthy_iff _).2 (hu _)

theorem repairEntries_ids_truthy (host : Host) (hu : ∀ k, host.uuid k ≠ "")
    (entries : List JVal) (st st1 : State) (articles : List Article)
    (h : repairEntries host st entries = some (articles, st1)) :
    ∀ a ∈ articles, a.id.truthy = true := by
  induction entries generalizing st st1 articles with
  | nil =>
    simp [repairEntries] at h
    rw [h.1]
    simp
  | cons e rest ih =>
    simp only [repairEntries] at h
    cases h1 : repairEntry host st e with
    | none => simp [h1] at h
    | some r =>
      obtain ⟨x, st2⟩ := r
      simp only [h1] at h
      cases h2 : repairEntries host st2 rest with
      | none => simp [h2] at h
      | some r2 =>
        obtain ⟨xs, st3⟩ := r2
        simp only [h2, Option.some.injEq, Prod.mk.injEq] at h
        rw [← h.1]
        intro a ha
        rcases List.mem_cons.1 ha with rfl | ha
        · exact repairEntry_id_truthy host hu st st2 e _ h1
        · exact ih st2 st3 xs h2 a ha

/-- With identifiers that are never empty, a save keeps every id of the
collection truthy: in a reachable collection an id is never falsy, so edit
mode is entered exactly when `editingArticleId` is the id of an article. -/
theorem saveEditor_ids_truthy (host : Host) (hu : ∀ k, host.uuid k ≠ "") (st : State)
    (u d : String) (h : ∀ a ∈ st.data.articles, a.id.truthy = true) :
    ∀ a ∈ (saveEditor host st u d).data.articles, a.id.truthy = true := by
  rcases saveEditor_cases host st u d with ⟨h1, _⟩ | ⟨idx, old, hold, h1, _⟩ | ⟨h1, _⟩
  · rw [h1]
    exact h
  · rw [h1]
    intro a ha
    rcases List.mem_or_eq_of_mem_set ha with ha | rfl
    · exact h a ha
    · exact h old (List.getElem?_mem hold)
  · rw [h1]
    intro a ha
    rcases List.mem_append.1 ha with ha | ha
    · exact h a ha
    · rw [List.mem_singleton.1 ha]
      exact (strTruthy_iff _).2 (hu _)

/-! ## Idempotence of the sanitizer -/

mutual
theorem Node.dropScripts_of_noScript :
    ∀ n : Node, n.allElements (fun tag _ => tag != "script") = true → n.dropScripts = n
  | .text _, _ => by simp [Node.dropScripts]
  | .element tag attrs kids, h => by
    simp only [Node.allElements, Bool.and_eq_true] at h
    simp only [Node.dropScripts, dropScriptsList_of_noScript kids h.2]
  | .template _ _, _ => by simp only [Node.dropScripts]
theorem dropScriptsList_of_noScript :
    ∀ l : List Node, allElementsList (fun tag _ => tag != "script") l = true →
      dropScriptsList l = l
  | [], _ => by simp [dropScriptsList]
  | n :: ns, h => by
    simp only [allElementsList, Bool.and_eq_true] at h
    have hn : n.isScript = false := by
      cases n with
      | text _ => rfl
      | element tag attrs kids =>
        have := h.1
        simp only [Node.allElements, Bool.and_eq_true] at this
        simpa [Node.isScript, bne] using this.1
      | template _ _ => rfl
    simp only [dropScriptsList, hn, Bool.false_eq_true, if_false,
      Node.dropScripts_of_noScript n h.1, dropScriptsList_of_noScript ns h.2]
end

mutual
theorem Node.scrub_noScript (host : Host) :
    ∀ n : Node, n.allElements (fun tag _ => tag != "script") = true →
      (n.scrub host).allElements (fun tag _ => tag != "script") = true
  | .text _, _ => by simp [Node.scrub, Node.allElements]
  | .element tag attrs kids, h => by
    simp only [Node.allElements, Bool.and_eq_true] at h
    simp only [Node.scrub, Node.allElements, Bool.and_eq_true]
    exact ⟨h.1, scrubList_noScript host kids h.2⟩
  | .template _ _, _ => by
    simp only [Node.scrub, Node.allElements]
    decide
theorem scrubList_noScript (host : Host) :
    ∀ l : List Node, allElementsList (fun tag _ => tag != "script") l = true →
      allElementsList (fun tag _ => tag != "script") (scrubList host l) = true
  | [], _ => by simp [scrubList, allElementsList]
  | n :: ns, h => by
    simp only [allElementsList, Bool.and_eq_true] at h
    simp only [scrubList, allElementsList, Bool.and_eq_true]
    exact ⟨Node.scrub_noScript host n h.1, scrubList_noScript host ns h.2⟩
end

theorem scrubAttrs_idem (host : Host) (attrs : List Attr)
    (h : (attrs.map Attr.name).Nodup) :
    scrubAttrs host (scrubAttrs host attrs) = scrubAttrs host attrs := by
  rw [scrubAttrs_eq_filter host attrs h,
    scrubAttrs_eq_filter host _ (nodup_names_filter attrs _ h), List.filter_filter]
  simp

mutual
theorem Node.scrub_idem (host : Host) :
    ∀ n : Node, n.allElements (fun _ attrs => decide (attrs.map Attr.name).Nodup) = true →
      (n.scrub host).scrub host = n.scrub host
  | .text _, _ => by simp [Node.scrub]
  | .element tag attrs kids, h => by
    simp only [Node.allElements, Bool.and_eq_true, decide_eq_true_eq] at h
    simp only [Node.scrub, scrubAttrs_idem host attrs h.1, scrubList_idem host kids h.2]
  | .template attrs content, h => by
    simp only [Node.allElements, decide_eq_true_eq] at h
    simp only [Node.scrub, scrubAttrs_idem host attrs h]
theorem scrubList_idem (host : Host) :
    ∀ l : List Node,
      allElementsList (fun _ attrs => decide (attrs.map Attr.name).Nodup) l = true →
      scrubList host (scrubList host l) = scrubList host l
  | [], _ => by simp [scrubList]
  | n :: ns, h => by
    simp only [allElementsList, Bool.and_eq_true] at h
    simp only [scrubList, Node.scrub_idem host n h.1, scrubList_idem host ns h.2]
end

/-- C11. `sanitizeHTML` is idempotent on trees: for every fragment tree whose
elements have pairwise distinct attribute names (every tree the HTML parser
builds), cleaning the cleaned tree again returns the cleaned tree. -/
theorem sanitizeTree_idempotent (host : Host) (frag : List Node)
    (h : distinctAttrNames frag = true) :
    sanitizeTree host (sanitizeTree host frag) = sanitizeTree host frag := by
  have h1 := noScript_dropScriptsList frag
  have h2 := allElementsList_dropScripts _ frag h
  unfold sanitizeTree
  rw [dropScriptsList_of_noScript _ (scrubList_noScript host _ h1),
    scrubList_idem host _ h2]

/-- C11: an instance, the sample fragment. -/
theorem sanitizeTree_idempotent_witness :
    distinctAttrNames sampleFragment = true
    ∧ sanitizeTree sampleHost (sanitizeTree sampleHost sampleFragment)
        = sanitizeTree sampleHost sampleFragment :=
  ⟨by decide, sanitizeTree_idempotent sampleHost sampleFragment (by decide)⟩

/-- On strings, `sanitizeHTML` is idempotent for every input whose parsed tree
has distinct attribute names and whose cleaned tree is read back unchanged by
the parser from its serialisation. -/
theorem sanitizeHTML_idempotent_of_reparse (host : Host) (html : String)
    (hdistinct : distinctAttrNames (host.parseHTML html) = true)
    (hreparse : host.parseHTML (host.printHTML (sanitizeTree host (host.parseHTML html)))
      = sanitizeTree host (host.parseHTML html)) :
    sanitizeHTML host (sanitizeHTML host html) = sanitizeHTML host html := by
  unfold sanitizeHTML
  rw [hreparse]
  unfold sanitizeTree
  rw [dropScriptsList_of_noScript _
      (scrubList_noScript host _ (noScript_dropScriptsList (host.parseHTML html))),
    scrubList_idem host _ (allElementsList_dropScripts _ (host.parseHTML html) hdistinct)]

/-! ## Titles as routing keys -/

theorem encodeChar_ne_nil (c : Char) : encodeChar c ≠ [] := by
  unfold encodeChar
  split_ifs
  · simp
  · unfold utf8Octets
    simp only
    split_ifs <;> simp [escapeOctet]

theorem encodeURIComponent_data_ne_nil (t : String) (h : t ≠ "") :
    (encodeURIComponent t).data ≠ [] := by
  obtain ⟨l⟩ := t
  cases l with
  | nil => exact absurd rfl h
  | cons c cs =>
    unfold encodeURIComponent
    simp only [List.flatMap_cons, ne_eq, List.append_eq_nil, not_and]
    intro hc
    exact absurd hc (encodeChar_ne_nil c)

/-- The fragment `saveEditor` and the article links navigate to resolves to the
article route of the title, unless the title is a reserved name. -/
theorem routeFromHash_encoded (t : String) (h1 : t ≠ "") (h2 : t ≠ "about")
    (h3 : t ≠ "random") (h4 : t ≠ "edit") :
    routeFromHash ("#/" ++ encodeURIComponent t) = some { name := .article, arg := some t } := by
  have hns := encodeURIComponent_no_slash t
  have hne := encodeURIComponent_data_ne_nil t h1
  have hd : ("#/" ++ encodeURIComponent t).data = '#' :: '/' :: (encodeURIComponent t).data := by
    rw [String.data_append]
    rfl
  have htr : strTruthy ("#/" ++ encodeURIComponent t) = true := by simp [strTruthy, hd]
  have hemp : (encodeURIComponent t).data.isEmpty = false := by
    cases hl : (encodeURIComponent t).data with
    | nil => exact absurd hl hne
    | cons _ _ => rfl
  have heta : (⟨(encodeURIComponent t).data⟩ : String) = encodeURIComponent t := rfl
  unfold routeFromHash
  simp only [htr, if_true, hd, List.drop_succ_cons, List.drop_zero, hemp, Bool.false_eq_true,
    if_false, splitSlash_no_slash _ hns, List.headD_cons, heta,
    decodeURIComponent_encodeURIComponent, h1, h2, h3, h4]

theorem find?_set_first {α : Type} (p q : α → Bool) (new : α) (l : List α) (idx : Nat)
    (hq : l.findIdx? q = some idx) (hp : p new = true)
    (hc : ∀ e, l.find? p = some e → q e = true) :
    (l.set idx new).find? p = some new := by
  induction l generalizing idx with
  | nil => simp at hq
  | cons x xs ih =>
    rw [List.findIdx?_cons] at hq
    by_cases hx : q x = true
    · simp only [hx, if_true, Option.some.injEq] at hq
      subst hq
      simp [List.set, hp]
    · simp only [hx, if_false, Bool.false_eq_true] at hq
      rw [List.findIdx?_succ] at hq
      cases hi : xs.findIdx? q with
      | none => simp [hi] at hq
      | some k =>
        simp only [hi, Option.map_some', Option.some.injEq] at hq
        subst hq
        have hpx : p x = false := by
          by_contra hpx
          have : (x :: xs).find? p = some x := by simp [List.find?, hpx]
          exact hx (hc x this)
        have hc1 : ∀ e, xs.find? p = some e → q e = true := by
          intro e he
          apply hc e
          simp [List.find?, hpx, he]
        simp only [List.set, List.find?, hpx]
        exact ih k hi hc1

/-- C12, counterexample. Saving an article with the title `about` succeeds and
navigates to `#/about`, which `routeFromHash` resolves to the about view, not
to the article route of that title. -/
theorem saved_reserved_title_not_routed :
    normalizeTitle "about" = "about"
    ∧ (saveEditor sampleHost { initialState "#/edit" with gateUnlocked := true } "about"
        "x").toasts = [.saved]
    ∧ (saveEditor sampleHost { initialState "#/edit" with gateUnlocked := true } "about"
        "x").hash = "#/" ++ encodeURIComponent "about"
    ∧ routeFromHash (saveEditor sampleHost { initialState "#/edit" with gateUnlocked := true }
        "about" "x").hash = some { name := .about, arg := none }
    ∧ routeFromHash (saveEditor sampleHost { initialState "#/edit" with gateUnlocked := true }
        "about" "x").hash ≠ some { name := .article, arg := some "about" } := by
  decide

/-- C12, amended. In a collection whose ids are truthy, with
`editingArticleId` either `null` or the id of an article, let `saveEditor`
succeed with a normalized title `t` other than `about`, `random` and `edit`.
Then the fragment it navigates to is `#/` followed by the percent-encoding of
`t`, `routeFromHash` resolves that fragment to the article route with argument
`t`, and `findArticleByTitle` on that argument returns the article just saved:
the one appended in create mode, the one written over the first article with
the edited id in edit mode. -/
theorem saved_title_routes (host : Host) (st : State) (u d : String)
    (hs : (saveEditor host st u d).toasts = st.toasts ++ [.saved])
    (h2 : normalizeTitle u ≠ "about") (h3 : normalizeTitle u ≠ "random")
    (h4 : normalizeTitle u ≠ "edit")
    (hids : ∀ a ∈ st.data.articles, a.id.truthy = true)
    (hmode : st.editingArticleId = .null
      ∨ ∃ a ∈ st.data.articles, strictEq a.id st.editingArticleId = true) :
    (saveEditor host st u d).hash = "#/" ++ encodeURIComponent (normalizeTitle u)
    ∧ routeFromHash (saveEditor host st u d).hash
        = some { name := .article, arg := some (normalizeTitle u) }
    ∧ ∃ saved : Article,
        findArticleByTitle (saveEditor host st u d).data.articles (normalizeTitle u) = some saved
        ∧ saved.title = normalizeTitle u ∧ saved.html = sanitizeHTML host d
        ∧ ((st.editingArticleId = .null
              ∧ (saveEditor host st u d).data.articles = st.data.articles ++ [saved])
          ∨ (∃ idx, findArticleIndexById st.data.articles st.editingArticleId = some idx
              ∧ (saveEditor host st u d).data.articles = st.data.articles.set idx saved)) := by
  obtain ⟨hn, hclash⟩ := saveEditor_saved_inv host st u d hs
  rcases hmode with h0 | hmem
  · have hf : findArticleByTitle st.data.articles (normalizeTitle u) = none := by
      cases hfe : findArticleByTitle st.data.articles (normalizeTitle u) with
      | none => rfl
      | some e =>
        exfalso
        have hid := strictEq_truthy _ _ (hclash e hfe)
        have hmem : e ∈ st.data.articles := List.mem_of_find?_eq_some hfe
        have ht := hids e hmem
        rw [hid, h0] at ht
        cases ht
    have heq := saveEditor_create host st u d (by rw [h0]; rfl) hn hclash
    have hhash : (saveEditor host st u d).hash
        = "#/" ++ encodeURIComponent (normalizeTitle u) := by rw [heq]
    refine ⟨hhash, ?_, _, ?_, rfl, rfl, Or.inl ⟨h0, by rw [heq]⟩⟩
    · rw [hhash]
      exact routeFromHash_encoded _ hn h2 h3 h4
    · rw [heq]
      exact findArticleByTitle_append_some _ [] _ _ hf rfl
  · obtain ⟨idx, old, hidx, hold, hp, _⟩ :=
      findArticleIndexById_some st.data.articles st.editingArticleId hmem
    have he : st.editingArticleId.truthy = true := by
      have hm : old ∈ st.data.articles := List.getElem?_mem hold
      rw [← strictEq_truthy _ _ hp]
      exact hids old hm
    have heq := saveEditor_edit host st u d idx old he hn hclash hidx hold
    have hhash : (saveEditor host st u d).hash
        = "#/" ++ encodeURIComponent (normalizeTitle u) := by rw [heq]
    refine ⟨hhash, ?_, _, ?_, rfl, rfl, Or.inr ⟨idx, hidx, by rw [heq]⟩⟩
    · rw [hhash]
      exact routeFromHash_encoded _ hn h2 h3 h4
    · rw [heq]
      exact find?_set_first _ (fun a : Article => strictEq a.id st.editingArticleId) _ _ idx hidx
        (by simp) hclash

/-- C12, amended: an instance. From the empty collection, saving under the
title `Foo Bar/é` (typed with extra white space) navigates to a fragment that
resolves to the article route of that title, under which the article is
found. -/
theorem saved_title_routes_witness :
    ((saveEditor sampleHost { initialState "#/edit" with gateUnlocked := true } " Foo  Bar/é "
        "x").toasts = [] ++ [.saved]
      ∧ normalizeTitle " Foo  Bar/é " = "Foo Bar/é"
      ∧ normalizeTitle " Foo  Bar/é " ≠ "about" ∧ normalizeTitle " Foo  Bar/é " ≠ "random"
      ∧ normalizeTitle " Foo  Bar/é " ≠ "edit")
    ∧ routeFromHash (saveEditor sampleHost { initialState "#/edit" with gateUnlocked := true }
        " Foo  Bar/é " "x").hash
        = some { name := .article, arg := some (normalizeTitle " Foo  Bar/é ") }
    ∧ ∃ saved : Article,
        findArticleByTitle (saveEditor sampleHost
          { initialState "#/edit" with gateUnlocked := true } " Foo  Bar/é " "x").data.articles
          (normalizeTitle " Foo  Bar/é ") = some saved
        ∧ saved.title = normalizeTitle " Foo  Bar/é " := by
  refine ⟨⟨by decide, by decide, by decide, by decide, by decide⟩, ?_⟩
  obtain ⟨_, hroute, saved, hfind, htitle, _, _⟩ :=
    saved_title_routes sampleHost { initialState "#/edit" with gateUnlocked := true }
      " Foo  Bar/é " "x" (by decide) (by decide) (by decide) (by decide)
      (fun a ha => by cases ha) (Or.inl rfl)
  exact ⟨hroute, saved, hfind, htitle⟩

/-! ## Worked examples -/

theorem normalizeTitle_examples :
    normalizeTitle "  Foo \t\n  Bar  " = "Foo Bar" ∧ normalizeTitle " \t " = ""
      ∧ normalizeTitle "Foo Bar" = "Foo Bar" := by
  decide

theorem encodeURIComponent_examples :
    encodeURIComponent "Foo Bar/é" = "Foo%20Bar%2F%C3%A9"
      ∧ decodeURIComponent "Foo%20Bar%2f%c3%a9" = some "Foo Bar/é"
      ∧ decodeURIComponent "%" = none ∧ decodeURIComponent "%C0%80" = none
      ∧ decodeURIComponent "%ED%A0%80" = none ∧ decodeURIComponent "%F4%90%80%80" = none
      ∧ decodeURIComponent "%E2%82x" = none := by
  decide

theorem routeFromHash_examples :
    routeFromHash "#/editor" = some { name := .article, arg := some "editor" }
      ∧ routeFromHash "#/edit/a/b" = some { name := .edit, arg := some "a/b" }
      ∧ routeFromHash "#/%61bout" = some { name := .about, arg := none }
      ∧ routeFromHash "#//x" = some { name := .home, arg := none }
      ∧ routeFromHash "#/%" = none := by
  decide

theorem sanitizeTree_example :
    sanitizeTree sampleHost sampleFragment
      = [.element "p" [⟨"class", "c"⟩] [.element "a" [] [.text "link"]]] := by
  rfl

theorem homeList_example :
    homeList sampleHost sampleState.data.articles " A "
      = some [sampleArticle2, sampleArticle] := by
  rfl

/-- The attribute loop removes by name, so the hypothesis of distinct attribute
names matters in the model: on an element given the same name twice the loop
drops the harmless first copy and a second run changes the result again. -/
theorem scrubAttrs_repeated_name_example :
    scrubAttrs sampleHost [⟨"href", "ok"⟩, ⟨"href", "javascript:x"⟩]
        = [⟨"href", "javascript:x"⟩]
      ∧ scrubAttrs sampleHost [⟨"href", "javascript:x"⟩] = [] := by
  decide

/-- A script URL whose scheme name is written with a tab inside passes the
test `value.trim().toLowerCase().startsWith("javascript:")`: the attribute is
kept. -/
theorem sanitizeTree_tab_in_scheme_example :
    sanitizeTree sampleHost tabSchemeFragment = tabSchemeFragment := by
  rfl

/-- Ids that are arrays. After the import of two entries whose ids both are
`[1]`, the two ids print alike and are two objects, which `===` tells apart.
With the editor opened on the second article, a save under the title of the
first is rejected as a duplicate, and a save under a new title writes over the
second article and leaves the first as it is. -/
theorem saveEditor_array_ids_example :
    arrayIdState.data.articles.map (fun a => a.id)
        = [.ref 0 (.arr [.num 1]), .ref 1 (.arr [.num 1])]
      ∧ arrayIdState.editingArticleId = .ref 1 (.arr [.num 1])
      ∧ strictEq (.ref 0 (.arr [.num 1])) (.ref 1 (.arr [.num 1])) = false
      ∧ findArticleIndexById arrayIdState.data.articles arrayIdState.editingArticleId = some 1
      ∧ (saveEditor sampleHost arrayIdState "A" "x").toasts
          = arrayIdState.toasts ++ [.duplicateTitle]
      ∧ (saveEditor sampleHost arrayIdState "B" "x").toasts = arrayIdState.toasts ++ [.saved]
      ∧ (saveEditor sampleHost arrayIdState "C" "x").data.articles.map (fun a => a.title)
          = ["A", "C"] := by
  refine ⟨rfl, rfl, by decide, by decide, by decide, by decide, by decide⟩

/-- The repair stops at the entry `null`: the readings of the clock and the
identifier consumed for the entries before it are not handed out again after
the fallback of `loadArticlesJSON` or the rejection of the import. -/
theorem repairReached_example :
    (repairEntries sampleHost (initialState "#/") [.obj [], .null]).isNone = true
      ∧ (loadArticlesJSON sampleHost (initialState "#/") (some nullEntrySnapshot)).ticks = 2
      ∧ (loadArticlesJSON sampleHost (initialState "#/") (some nullEntrySnapshot)).uuids = 1
      ∧ (loadArticlesJSON sampleHost (initialState "#/")
          (some nullEntrySnapshot)).data.articles.length = 0
      ∧ (importArticlesFromFile sampleHost (initialState "#/") (some nullEntrySnapshot)).ticks = 2
      ∧ (importArticlesFromFile sampleHost (initialState "#/") (some nullEntrySnapshot)).toasts
          = [.importFailed] := by
  decide

/-- An exception of a view escapes `renderRoute` after `STATE.currentRoute` was
assigned, an exception of `routeFromHash` before. -/
theorem renderRoute_thrown_example :
    (importArticlesFromFile sampleHost
        { initialState "#/" with currentRoute := { name := .about, arg := none } }
        (some numericIdSnapshot)).currentRoute = { name := .home, arg := none }
      ∧ (importArticlesFromFile sampleHost
        { initialState "#/%" with currentRoute := { name := .about, arg := none } }
        (some sampleSnapshot)).currentRoute = { name := .about, arg := none } := by
  decide

/-- The sort of the home view on values of `updatedAt` that are not strings.
One article is never compared. Two articles whose `updatedAt` are numbers make
every comparison throw, on every host. -/
theorem homeList_not_strings_example (host : Host) :
    homeList host [{ sampleArticle with updatedAt := .num 5 }] ""
        = some ([{ sampleArticle with updatedAt := .num 5 }].filter
            (matchesQuery host (host.toLowerCase (jsTrim ""))))
      ∧ homeList host [{ sampleArticle with updatedAt := .num 5 },
          { sampleArticle2 with updatedAt := .num 6 }] "" = none := by
  constructor
  · rfl
  · simp [homeList, jsSortM, byUpdatedDesc, sortKey, Val.truthy, sampleArticle, sampleArticle2]

end Wiki
